import Mathlib

/-
  Verification of the rtpproxy media relay core (src/main.c).

  This file shallowly embeds the parts of the program that the claims
  C1..C10 are about:
    * the packet forwarder rxmit_packets / send_packet (address
      authentication, address learning, packet counters);
    * the port allocator create_twinlistener / create_listener;
    * the poll-set / session-table maintenance append_session,
      remove_session, the compaction pass of process_rtp, and the
      housekeeper alarmhandler;
    * the control-command processor handle_command (verbs U, L, D, R, S,
      V/VF, I; modifier parsing; tag matching; session create / lookup /
      delete; reply framing).

  Machine integers: the C code uses int / long values that stay far from
  overflow on every path modelled here (ports < 65536, counters, small
  argument counts), so they are embedded as Int / Nat without wrap-around.
  External collaborators (the OS socket layer, getaddrinfo, the resizer)
  are passed in as explicit oracle functions.
-/

namespace RtpProxy

/-! ## Remote addresses and packets

A `struct sockaddr` as the forwarder sees it: `memcmp` over the stored
bytes is modelled as decidable equality of the (host, port) pair, and
`ishostseq` as equality of the hosts only. -/

structure RAddr where
  host : Nat
  port : Nat
deriving DecidableEq

/-- Model of `ishostseq`: compares only the host part of two addresses. -/
def ishostseq (a b : RAddr) : Bool :=
  a.host = b.host

/-- Model of `struct rtp_packet` as received by `rtp_recv`: the source
address (`raddr`) and the payload size. -/
structure RPacket where
  raddr : RAddr
  size : Nat
deriving DecidableEq

/-! ## Forwarder sessions

`FSession` carries the fields of `struct rtpp_session` that
`rxmit_packets` and `send_packet` read or write.  The forwarder step is
modelled on an RTP session `sp` (so `GET_RTP(sp) = sp`, `sp->rtcp` is the
twin passed alongside).  File descriptors and the actual `sendto` are
outside the model; whether a prompt player / recorder is installed is a
boolean. -/

structure FSession where
  addr : Fin 2 → Option RAddr
  asymmetric : Fin 2 → Bool
  canupdate : Fin 2 → Bool
  pcount : Fin 4 → Nat
  rtps : Fin 2 → Bool
  rrcs : Fin 2 → Bool
  resizerN : Fin 2 → Int
  ttl : Int

/-- Embeds a side index into the four-counter index space. -/
def cidx (r : Fin 2) : Fin 4 :=
  ⟨r.val, by omega⟩

/-- Index of the opposite call leg, `sidx = (ridx == 0) ? 1 : 0`. -/
def otherSide (r : Fin 2) : Fin 2 :=
  if r = 0 then 1 else 0

/-- Increment one packet counter of a session. -/
def bump (s : FSession) (k : Fin 4) : FSession :=
  { s with pcount := Function.update s.pcount k (s.pcount k + 1) }

/-- Model of `send_packet` (src/main.c lines 1417-1444): refresh the RTP
ttl, then either relay, incrementing `pcount[2]`, or drop because the
destination address is unknown or a prompt player owns the outgoing
stream, incrementing `pcount[3]`.  The `sendto` / `rwrite` calls
themselves do not change session state beyond the counters. -/
def send_packet (max_ttl : Int) (sp : FSession) (ridx : Fin 2)
    (_packet : RPacket) : FSession :=
  let sp := { sp with ttl := max_ttl }
  let sidx := otherSide ridx
  if (sp.addr sidx).isNone || sp.rtps sidx then
    bump sp 3
  else
    bump sp 2

/-- The authentication decision of `rxmit_packets` (src/main.c lines
1319-1361) for one datagram from source address `src`: `none` models the
`continue` drops, `some upd` acceptance with `upd` the flag `i` that
requests the recorded address be (re)written.  The `malloc` for a freshly
learned address is assumed to succeed. -/
def rxmit_auth (sp : FSession) (ridx : Fin 2) (src : RAddr) : Option Bool :=
  match sp.addr ridx with
  | some a =>
    if sp.asymmetric ridx = false then
      if a ≠ src then
        if sp.canupdate ridx = false then none
        else some true
      else some false
    else
      if ishostseq a src = false then none
      else some false
  | none => some true

/-- The `Update recorded address` block (src/main.c lines 1364-1366):
overwrite the recorded address with the packet source and disarm
`canupdate`. -/
def learn_addr (sp : FSession) (ridx : Fin 2) (src : RAddr) : FSession :=
  { sp with addr := Function.update sp.addr ridx (some src),
            canupdate := Function.update sp.canupdate ridx false }

/-- The RTCP peer-address guess on the twin session (src/main.c lines
1383-1404): if the twin records no address for this side, or one on a
different host, install (source host, source port + 1) and re-arm the
twin's `canupdate` from its asymmetry flag. -/
def rtcp_guess (twin : FSession) (ridx : Fin 2) (src : RAddr) : FSession :=
  if (match twin.addr ridx with
      | none => true
      | some b => !ishostseq b src) then
    { twin with
        addr := Function.update twin.addr ridx (some ⟨src.host, src.port + 1⟩),
        canupdate := Function.update twin.canupdate ridx (!twin.asymmetric ridx) }
  else twin

/-- Result of processing one received datagram in `rxmit_packets`: the
updated RTP session, the updated RTCP twin, and whether the packet passed
source-address authentication. -/
structure RxResult where
  sp : FSession
  twin : FSession
  accepted : Bool


/-- The session-side state change of one accepted datagram: count it on
`pcount[ridx]` (allocating the address buffer first when it was unknown),
then run the address-update block when requested. -/
def rxmit_core (sp : FSession) (ridx : Fin 2) (src : RAddr) (upd : Bool) :
    FSession :=
  let sp1 := bump (if upd ∧ sp.addr ridx = none then
      { sp with addr := Function.update sp.addr ridx (some src) }
    else sp) (cidx ridx)
  if upd then learn_addr sp1 ridx src else sp1

/-- Model of the per-packet body of `rxmit_packets` (src/main.c lines
1319-1410) running on an RTP session `sp` with RTCP twin `twin`, side
`ridx`.  `absorb` is the answer of the external `rtp_resizer_enqueue`
collaborator (whether it consumed the packet); it is only consulted when a
resizer is installed on side `ridx`. -/
def rxmit_packet (max_ttl : Int) (sp twin : FSession) (ridx : Fin 2)
    (packet : RPacket) (absorb : Bool) : RxResult :=
  match rxmit_auth sp ridx packet.raddr with
  | none => ⟨sp, twin, false⟩
  | some upd =>
    let sp2 := rxmit_core sp ridx packet.raddr upd
    let twin2 := if upd then rtcp_guess twin ridx packet.raddr else twin
    if sp2.resizerN ridx > 0 && absorb then ⟨sp2, twin2, true⟩
    else ⟨send_packet max_ttl sp2 ridx packet, twin2, true⟩

/-- Folding the forwarder step over a list of incoming datagrams, each
tagged with the side it arrives on and the resizer-absorption oracle
answer for it. -/
def rxmit_run (max_ttl : Int) (sp twin : FSession)
    (pkts : List (Fin 2 × RPacket × Bool)) : FSession × FSession :=
  match pkts with
  | [] => (sp, twin)
  | (ridx, packet, absorb) :: rest =>
    let r := rxmit_packet max_ttl sp twin ridx packet absorb
    rxmit_run max_ttl r.sp r.twin rest

/-- Counter balance of a session: packets in from both sides equal packets
relayed plus packets dropped. -/
def pbalanced (s : FSession) : Prop :=
  s.pcount 0 + s.pcount 1 = s.pcount 2 + s.pcount 3

lemma cidx_ne_two (r : Fin 2) : cidx r ≠ 2 := by
  revert r
  decide

lemma cidx_ne_three (r : Fin 2) : cidx r ≠ 3 := by
  revert r
  decide

lemma cidx_zero_or_one (r : Fin 2) : cidx r = 0 ∨ cidx r = 1 := by
  revert r
  decide

lemma bump_pcount (s : FSession) (k j : Fin 4) :
    (bump s k).pcount j = if j = k then s.pcount k + 1 else s.pcount j := by
  simp [bump, Function.update_apply]

lemma learn_addr_pcount (s : FSession) (r : Fin 2) (src : RAddr) :
    (learn_addr s r src).pcount = s.pcount := rfl

lemma learn_addr_resizerN (s : FSession) (r : Fin 2) (src : RAddr) :
    (learn_addr s r src).resizerN = s.resizerN := rfl

lemma send_packet_pcount (m : Int) (s : FSession) (r : Fin 2) (p : RPacket) :
    ((send_packet m s r p).pcount 2 = s.pcount 2 + 1 ∧
       (send_packet m s r p).pcount 3 = s.pcount 3) ∨
    ((send_packet m s r p).pcount 3 = s.pcount 3 + 1 ∧
       (send_packet m s r p).pcount 2 = s.pcount 2) := by
  unfold send_packet
  dsimp only
  split
  · right
    constructor <;> simp [bump_pcount]
  · left
    constructor <;> simp [bump_pcount]

lemma send_packet_pcount_low (m : Int) (s : FSession) (r : Fin 2)
    (p : RPacket) (j : Fin 4) (h2 : j ≠ 2) (h3 : j ≠ 3) :
    (send_packet m s r p).pcount j = s.pcount j := by
  unfold send_packet
  dsimp only
  split <;> simp [bump_pcount, h2, h3]

lemma send_packet_addr (m : Int) (s : FSession) (r : Fin 2) (p : RPacket) :
    (send_packet m s r p).addr = s.addr := by
  unfold send_packet
  dsimp only
  split <;> rfl

lemma send_packet_canupdate (m : Int) (s : FSession) (r : Fin 2) (p : RPacket) :
    (send_packet m s r p).canupdate = s.canupdate := by
  unfold send_packet
  dsimp only
  split <;> rfl

lemma send_packet_asymmetric (m : Int) (s : FSession) (r : Fin 2) (p : RPacket) :
    (send_packet m s r p).asymmetric = s.asymmetric := by
  unfold send_packet
  dsimp only
  split <;> rfl

lemma send_packet_resizerN (m : Int) (s : FSession) (r : Fin 2) (p : RPacket) :
    (send_packet m s r p).resizerN = s.resizerN := by
  unfold send_packet
  dsimp only
  split <;> rfl

lemma rxmit_core_pcount (sp : FSession) (r : Fin 2) (src : RAddr) (upd : Bool) :
    (rxmit_core sp r src upd).pcount (cidx r) = sp.pcount (cidx r) + 1 ∧
    ∀ j : Fin 4, j ≠ cidx r →
      (rxmit_core sp r src upd).pcount j = sp.pcount j := by
  unfold rxmit_core
  dsimp only
  have h0 : (if upd ∧ sp.addr r = none then
      { sp with addr := Function.update sp.addr r (some src) }
    else sp).pcount = sp.pcount := by
    split <;> rfl
  constructor
  · split <;> simp [learn_addr_pcount, bump_pcount, h0]
  · intro j hj
    split <;> simp [learn_addr_pcount, bump_pcount, h0, hj]

lemma rxmit_core_resizerN (sp : FSession) (r : Fin 2) (src : RAddr)
    (upd : Bool) :
    (rxmit_core sp r src upd).resizerN = sp.resizerN := by
  unfold rxmit_core
  dsimp only
  have h0 : (if upd ∧ sp.addr r = none then
      { sp with addr := Function.update sp.addr r (some src) }
    else sp).resizerN = sp.resizerN := by
    split <;> rfl
  split <;> simp [learn_addr_resizerN, bump, h0]

lemma rxmit_core_asymmetric (sp : FSession) (r : Fin 2) (src : RAddr)
    (upd : Bool) :
    (rxmit_core sp r src upd).asymmetric = sp.asymmetric := by
  unfold rxmit_core
  dsimp only
  have h0 : (if upd ∧ sp.addr r = none then
      { sp with addr := Function.update sp.addr r (some src) }
    else sp).asymmetric = sp.asymmetric := by
    split <;> rfl
  split <;> simp [learn_addr, bump, h0]

/-- Without an address update the recorded addresses and the one-shot
guards are untouched. -/
lemma rxmit_core_noupd (sp : FSession) (r : Fin 2) (src : RAddr) :
    (rxmit_core sp r src false).addr = sp.addr ∧
    (rxmit_core sp r src false).canupdate = sp.canupdate := by
  unfold rxmit_core
  simp [bump]

/-- With an address update the packet source is recorded and the one-shot
guard is disarmed. -/
lemma rxmit_core_upd (sp : FSession) (r : Fin 2) (src : RAddr) :
    (rxmit_core sp r src true).addr r = some src ∧
    (rxmit_core sp r src true).canupdate r = false := by
  unfold rxmit_core
  simp [learn_addr, bump]

lemma rxmit_packet_drop (m : Int) (sp twin : FSession) (r : Fin 2)
    (p : RPacket) (ab : Bool) (h : rxmit_auth sp r p.raddr = none) :
    rxmit_packet m sp twin r p ab = ⟨sp, twin, false⟩ := by
  unfold rxmit_packet
  rw [h]

lemma rxmit_packet_resizerN (m : Int) (sp twin : FSession) (r : Fin 2)
    (p : RPacket) (ab : Bool) :
    (rxmit_packet m sp twin r p ab).sp.resizerN = sp.resizerN := by
  unfold rxmit_packet
  cases hauth : rxmit_auth sp r p.raddr with
  | none => rfl
  | some upd =>
    dsimp only
    split
    · exact rxmit_core_resizerN sp r p.raddr upd
    · rw [send_packet_resizerN]
      exact rxmit_core_resizerN sp r p.raddr upd

lemma rxmit_packet_accept_count (m : Int) (sp twin : FSession) (r : Fin 2)
    (p : RPacket) (ab : Bool) (upd : Bool)
    (h : rxmit_auth sp r p.raddr = some upd) :
    (rxmit_packet m sp twin r p ab).accepted = true ∧
    (rxmit_packet m sp twin r p ab).sp.pcount (cidx r) =
      sp.pcount (cidx r) + 1 := by
  unfold rxmit_packet
  rw [h]
  dsimp only
  split
  · exact ⟨rfl, (rxmit_core_pcount sp r p.raddr upd).1⟩
  · refine ⟨rfl, ?_⟩
    rw [send_packet_pcount_low _ _ _ _ _ (cidx_ne_two r) (cidx_ne_three r)]
    exact (rxmit_core_pcount sp r p.raddr upd).1

/-- One forwarder step keeps the counter balance when no resizer is
installed on the receiving session. -/
lemma rxmit_packet_balance (m : Int) (sp twin : FSession) (r : Fin 2)
    (p : RPacket) (ab : Bool)
    (hres : sp.resizerN r ≤ 0) (hbal : pbalanced sp) :
    pbalanced (rxmit_packet m sp twin r p ab).sp := by
  unfold rxmit_packet
  cases hauth : rxmit_auth sp r p.raddr with
  | none => exact hbal
  | some upd =>
    dsimp only
    rw [if_neg (by
      rw [Bool.and_eq_true]
      rintro ⟨hgt, -⟩
      rw [decide_eq_true_eq, rxmit_core_resizerN] at hgt
      omega)]
    have hc := rxmit_core_pcount sp r p.raddr upd
    unfold pbalanced at hbal ⊢
    rcases cidx_zero_or_one r with hcc | hcc
    · have k0 : (rxmit_core sp r p.raddr upd).pcount 0 = sp.pcount 0 + 1 := by
        rw [hcc] at hc
        exact hc.1
      have k1 := hc.2 1 (by rw [hcc]; decide)
      have k2 := hc.2 2 (by rw [hcc]; decide)
      have k3 := hc.2 3 (by rw [hcc]; decide)
      rcases send_packet_pcount m (rxmit_core sp r p.raddr upd) r p
          with ⟨ha, hb⟩ | ⟨ha, hb⟩ <;>
        rw [send_packet_pcount_low _ _ _ _ 0 (by decide) (by decide),
          send_packet_pcount_low _ _ _ _ 1 (by decide) (by decide),
          ha, hb, k0, k1, k2, k3] <;>
        omega
    · have k1 : (rxmit_core sp r p.raddr upd).pcount 1 = sp.pcount 1 + 1 := by
        rw [hcc] at hc
        exact hc.1
      have k0 := hc.2 0 (by rw [hcc]; decide)
      have k2 := hc.2 2 (by rw [hcc]; decide)
      have k3 := hc.2 3 (by rw [hcc]; decide)
      rcases send_packet_pcount m (rxmit_core sp r p.raddr upd) r p
          with ⟨ha, hb⟩ | ⟨ha, hb⟩ <;>
        rw [send_packet_pcount_low _ _ _ _ 0 (by decide) (by decide),
          send_packet_pcount_low _ _ _ _ 1 (by decide) (by decide),
          ha, hb, k0, k1, k2, k3] <;>
        omega

/-- Any run of the forwarder keeps the counter balance when no resizer is
installed. -/
lemma rxmit_run_balance (m : Int) (sp twin : FSession)
    (pkts : List (Fin 2 × RPacket × Bool))
    (hres : ∀ i : Fin 2, sp.resizerN i ≤ 0) (hbal : pbalanced sp) :
    pbalanced (rxmit_run m sp twin pkts).1 := by
  induction pkts generalizing sp twin with
  | nil => exact hbal
  | cons h t ih =>
    obtain ⟨r, p, ab⟩ := h
    unfold rxmit_run
    dsimp only
    exact ih _ _
      (fun i => by rw [rxmit_packet_resizerN]; exact hres i)
      (rxmit_packet_balance m sp twin r p ab (hres r) hbal)

lemma rxmit_auth_sym_match (sp : FSession) (r : Fin 2) (src a : RAddr)
    (haddr : sp.addr r = some a) (hsym : sp.asymmetric r = false)
    (hs : src = a) :
    rxmit_auth sp r src = some false := by
  unfold rxmit_auth
  rw [haddr]
  simp [hsym, hs]

lemma rxmit_auth_sym_update (sp : FSession) (r : Fin 2) (src a : RAddr)
    (haddr : sp.addr r = some a) (hsym : sp.asymmetric r = false)
    (hs : src ≠ a) (hcan : sp.canupdate r = true) :
    rxmit_auth sp r src = some true := by
  have hne : ¬ a = src := fun h => hs h.symm
  unfold rxmit_auth
  rw [haddr]
  simp [hsym, hcan, hne]

lemma rxmit_auth_sym_reject (sp : FSession) (r : Fin 2) (src a : RAddr)
    (haddr : sp.addr r = some a) (hsym : sp.asymmetric r = false)
    (hs : src ≠ a) (hcan : sp.canupdate r = false) :
    rxmit_auth sp r src = none := by
  have hne : ¬ a = src := fun h => hs h.symm
  unfold rxmit_auth
  rw [haddr]
  simp [hsym, hcan, hne]

lemma rxmit_packet_noupd_fields (m : Int) (sp twin : FSession) (r : Fin 2)
    (p : RPacket) (ab : Bool) (h : rxmit_auth sp r p.raddr = some false) :
    (rxmit_packet m sp twin r p ab).sp.addr = sp.addr ∧
    (rxmit_packet m sp twin r p ab).sp.canupdate = sp.canupdate := by
  unfold rxmit_packet
  rw [h]
  dsimp only
  split
  · exact rxmit_core_noupd sp r p.raddr
  · rw [send_packet_addr, send_packet_canupdate]
    exact rxmit_core_noupd sp r p.raddr

lemma rxmit_packet_upd_fields (m : Int) (sp twin : FSession) (r : Fin 2)
    (p : RPacket) (ab : Bool) (h : rxmit_auth sp r p.raddr = some true) :
    (rxmit_packet m sp twin r p ab).sp.addr r = some p.raddr ∧
    (rxmit_packet m sp twin r p ab).sp.canupdate r = false := by
  unfold rxmit_packet
  rw [h]
  dsimp only
  split
  · exact rxmit_core_upd sp r p.raddr
  · rw [send_packet_addr, send_packet_canupdate]
    exact rxmit_core_upd sp r p.raddr

lemma rxmit_packet_asymmetric (m : Int) (sp twin : FSession) (r : Fin 2)
    (p : RPacket) (ab : Bool) :
    (rxmit_packet m sp twin r p ab).sp.asymmetric = sp.asymmetric := by
  unfold rxmit_packet
  cases hauth : rxmit_auth sp r p.raddr with
  | none => rfl
  | some upd =>
    dsimp only
    split
    · exact rxmit_core_asymmetric sp r p.raddr upd
    · rw [send_packet_asymmetric]
      exact rxmit_core_asymmetric sp r p.raddr upd

/-- C2: on a session side with a known remote address in symmetric mode, a
packet from the recorded source is accepted with the recorded address and
guard untouched; a mismatched packet with `canupdate` set is accepted, the
address is overwritten with the packet source and `canupdate` cleared; a
mismatched packet with `canupdate` clear is dropped with no state change;
consequently a second mismatched packet after such an overwrite is
dropped, so at most one mismatch-triggered overwrite can happen until
`canupdate` is re-armed. -/
theorem claim_C2 (m : Int) (sp twin : FSession) (r : Fin 2)
    (p q : RPacket) (ab ab2 : Bool) (a : RAddr)
    (haddr : sp.addr r = some a) (hsym : sp.asymmetric r = false) :
    (p.raddr = a →
      (rxmit_packet m sp twin r p ab).accepted = true ∧
      (rxmit_packet m sp twin r p ab).sp.addr r = some a ∧
      (rxmit_packet m sp twin r p ab).sp.canupdate r = sp.canupdate r) ∧
    (p.raddr ≠ a → sp.canupdate r = true →
      (rxmit_packet m sp twin r p ab).accepted = true ∧
      (rxmit_packet m sp twin r p ab).sp.addr r = some p.raddr ∧
      (rxmit_packet m sp twin r p ab).sp.canupdate r = false) ∧
    (p.raddr ≠ a → sp.canupdate r = false →
      rxmit_packet m sp twin r p ab = ⟨sp, twin, false⟩) ∧
    (p.raddr ≠ a → sp.canupdate r = true → q.raddr ≠ p.raddr →
      rxmit_packet m (rxmit_packet m sp twin r p ab).sp
          (rxmit_packet m sp twin r p ab).twin r q ab2 =
        ⟨(rxmit_packet m sp twin r p ab).sp,
         (rxmit_packet m sp twin r p ab).twin, false⟩) := by
  refine ⟨?_, ?_, ?_, ?_⟩
  · intro hp
    have hau := rxmit_auth_sym_match sp r p.raddr a haddr hsym hp
    have hfields := rxmit_packet_noupd_fields m sp twin r p ab hau
    exact ⟨(rxmit_packet_accept_count m sp twin r p ab false hau).1,
      by rw [hfields.1, haddr], by rw [hfields.2]⟩
  · intro hp hcan
    have hau := rxmit_auth_sym_update sp r p.raddr a haddr hsym hp hcan
    have hfields := rxmit_packet_upd_fields m sp twin r p ab hau
    exact ⟨(rxmit_packet_accept_count m sp twin r p ab true hau).1,
      hfields.1, hfields.2⟩
  · intro hp hcan
    exact rxmit_packet_drop m sp twin r p ab
      (rxmit_auth_sym_reject sp r p.raddr a haddr hsym hp hcan)
  · intro hp hcan hq
    have hau := rxmit_auth_sym_update sp r p.raddr a haddr hsym hp hcan
    have hfields := rxmit_packet_upd_fields m sp twin r p ab hau
    have hasym : (rxmit_packet m sp twin r p ab).sp.asymmetric r = false := by
      rw [rxmit_packet_asymmetric]
      exact hsym
    exact rxmit_packet_drop m _ _ r q ab2
      (rxmit_auth_sym_reject _ r q.raddr p.raddr hfields.1 hasym hq hfields.2)

/-- Sample RTP session with both remote addresses recorded, symmetric,
with the learning guard armed. -/
def sampleA : FSession :=
  ⟨fun j => if j = 0 then some ⟨1, 1000⟩ else some ⟨2, 2000⟩,
   fun _ => false, fun _ => true, fun _ => 0,
   fun _ => false, fun _ => false, fun _ => 0, 60⟩

/-- Sample RTP session like `sampleA` but with the learning guard
disarmed. -/
def sampleC : FSession :=
  ⟨fun j => if j = 0 then some ⟨1, 1000⟩ else some ⟨2, 2000⟩,
   fun _ => false, fun _ => false, fun _ => 0,
   fun _ => false, fun _ => false, fun _ => 0, 60⟩

/-- Sample RTCP twin session with unknown remote addresses. -/
def sampleT : FSession :=
  ⟨fun _ => none, fun _ => false, fun _ => true, fun _ => 0,
   fun _ => false, fun _ => false, fun _ => 0, -1⟩

/-- Sample RTP session whose side-1 destination is still unknown. -/
def sampleD : FSession :=
  ⟨fun j => if j = 0 then some ⟨1, 1000⟩ else none,
   fun _ => false, fun _ => true, fun _ => 0,
   fun _ => false, fun _ => false, fun _ => 0, 60⟩

/-- Witness for C2 at a concrete session and mismatched packet. -/
theorem claim_C2_witness :
    (rxmit_packet 60 sampleA sampleT 0 ⟨⟨3, 3000⟩, 50⟩ false).accepted = true ∧
    (rxmit_packet 60 sampleA sampleT 0 ⟨⟨3, 3000⟩, 50⟩ false).sp.addr 0 =
      some ⟨3, 3000⟩ ∧
    (rxmit_packet 60 sampleA sampleT 0 ⟨⟨3, 3000⟩, 50⟩ false).sp.canupdate 0 =
      false :=
  (claim_C2 60 sampleA sampleT 0 ⟨⟨3, 3000⟩, 50⟩ ⟨⟨4, 4000⟩, 50⟩ false false
    ⟨1, 1000⟩ rfl rfl).2.1 (by decide) rfl

/-- Counterexample to C4 as stated: a packet that fails source
authentication (known symmetric address, mismatched source, guard
disarmed) is dropped, yet `counters[3]` is not incremented; in fact no
counter changes at all. -/
theorem claim_C4_counterexample :
    (rxmit_packet 60 sampleC sampleT 0 ⟨⟨3, 3000⟩, 50⟩ false).accepted =
      false ∧
    (rxmit_packet 60 sampleC sampleT 0 ⟨⟨3, 3000⟩, 50⟩ false).sp.pcount 3 =
      0 ∧
    (rxmit_packet 60 sampleC sampleT 0 ⟨⟨3, 3000⟩, 50⟩ false).sp.pcount 0 =
      0 := by
  refine ⟨?_, ?_, ?_⟩ <;> rfl

/-- C4 (amended): a packet that fails source authentication is dropped
without touching any counter; an accepted packet increments
`counters[ridx]`; an accepted packet that cannot be delivered (destination
address unknown or a player active on the destination side) increments
`counters[3]`; and from any balanced counter state a forwarder run with no
resizer installed keeps `counters[0]+counters[1] = counters[2]+counters[3]`
(the quiescent balance). -/
theorem claim_C4 (m : Int) (sp twin : FSession) (r : Fin 2)
    (p : RPacket) (ab upd : Bool) (pkts : List (Fin 2 × RPacket × Bool)) :
    (rxmit_auth sp r p.raddr = none →
      rxmit_packet m sp twin r p ab = ⟨sp, twin, false⟩) ∧
    (rxmit_auth sp r p.raddr = some upd →
      (rxmit_packet m sp twin r p ab).accepted = true ∧
      (rxmit_packet m sp twin r p ab).sp.pcount (cidx r) =
        sp.pcount (cidx r) + 1) ∧
    (rxmit_auth sp r p.raddr = some upd → sp.resizerN r ≤ 0 →
      ((rxmit_core sp r p.raddr upd).addr (otherSide r) = none ∨
        (rxmit_core sp r p.raddr upd).rtps (otherSide r) = true) →
      (rxmit_packet m sp twin r p ab).sp.pcount 3 = sp.pcount 3 + 1) ∧
    ((∀ i : Fin 2, sp.resizerN i ≤ 0) → pbalanced sp →
      pbalanced (rxmit_run m sp twin pkts).1) := by
  refine ⟨?_, ?_, ?_, ?_⟩
  · exact rxmit_packet_drop m sp twin r p ab
  · exact rxmit_packet_accept_count m sp twin r p ab upd
  · intro hau hres hdest
    unfold rxmit_packet
    rw [hau]
    dsimp only
    rw [if_neg (by
      rw [Bool.and_eq_true]
      rintro ⟨hgt, -⟩
      rw [decide_eq_true_eq, rxmit_core_resizerN] at hgt
      omega)]
    unfold send_packet
    dsimp only
    rw [if_pos (by
      rcases hdest with hd | hd
      · simp [hd]
      · simp [hd])]
    rw [bump_pcount]
    rw [if_pos rfl]
    congr 1
    exact ((rxmit_core_pcount sp r p.raddr upd).2 3 (Ne.symm (cidx_ne_three r)))
  · exact rxmit_run_balance m sp twin pkts

/-- Witness for C4 (amended) at a concrete accepted-then-undeliverable
packet and a concrete two-packet balanced run. -/
theorem claim_C4_witness :
    (rxmit_packet 60 sampleD sampleT 0 ⟨⟨1, 1000⟩, 50⟩ false).sp.pcount 3 =
      1 ∧
    pbalanced (rxmit_run 60 sampleA sampleT
      [(0, ⟨⟨1, 1000⟩, 50⟩, false), (0, ⟨⟨9, 9000⟩, 50⟩, false)]).1 := by
  constructor
  · exact (claim_C4 60 sampleD sampleT 0 ⟨⟨1, 1000⟩, 50⟩ false false []).2.2.1
      (by decide) (by decide) (by decide)
  · exact (claim_C4 60 sampleA sampleT 0 ⟨⟨1, 1⟩, 1⟩ false false
      [(0, ⟨⟨1, 1000⟩, 50⟩, false), (0, ⟨⟨9, 9000⟩, 50⟩, false)]).2.2.2
      (by decide) rfl

/-! ## Port allocator

`create_twinlistener` / `create_listener` (src/main.c lines 224-294).
The OS socket layer is an oracle `BindEnv`: `res p` tells what happens
when the allocator tries to create and bind a socket at port `p`
(`binuse` = `EADDRINUSE`/`EACCES`, `bfail` = `socket()` failure or any
other `bind` error), and `fd p` is the descriptor the OS hands out. -/

inductive BindStep
  | bok
  | binuse
  | bfail
deriving DecidableEq

structure BindEnv where
  res : Int → BindStep
  fd : Int → Int

/-- Model of `create_twinlistener`: bind two sockets at `port` and
`port+1`; on any failure both descriptors are closed (set to -1) and the
return value distinguishes `EADDRINUSE`/`EACCES` (-2) from other failures
(-1). -/
def create_twinlistener (env : BindEnv) (port : Int) : Int × (Int × Int) :=
  match env.res port with
  | .binuse => (-2, (-1, -1))
  | .bfail => (-1, (-1, -1))
  | .bok =>
    match env.res (port + 1) with
    | .binuse => (-2, (-1, -1))
    | .bfail => (-1, (-1, -1))
    | .bok => (0, (env.fd port, env.fd (port + 1)))

/-- Outcome of `create_listener`: failure (-1) or a bound pair. -/
inductive CLOut
  | clfail
  | clok (lport fd0 fd1 : Int)
deriving DecidableEq

/-- The probing loop of `create_listener` (src/main.c lines 281-292),
instrumented with the list of probed ports.  `fuel` bounds the number of
iterations; `none` means the fuel ran out, which the lemmas below show
cannot happen for an even cursor.  The cursor wraps from `port_max` back
to `port_min` (via the `port_min - 2` assignment and the loop `+= 2`
increment) and the loop exits with failure once it returns to its starting
point. -/
def create_listener_loop (env : BindEnv) (pmin pmax sp0 : Int) :
    Nat → Int → Bool → List Int → List Int × Option CLOut
  | 0, _, _, tr => (tr, none)
  | Nat.succ fuel, port, started, tr =>
    if port = sp0 ∧ started = true then
      (tr, some .clfail)
    else
      let r := create_twinlistener env port
      let tr2 := tr ++ [port]
      if r.1 = 0 then
        (tr2, some (.clok port r.2.1 r.2.2))
      else if r.1 = -1 then
        (tr2, some .clfail)
      else
        let port2 := if port ≥ pmax then pmin - 2 else port
        create_listener_loop env pmin pmax sp0 fuel (port2 + 2) true tr2

/-- Model of `create_listener` (src/main.c lines 269-294): clamp the
starting cursor into the configured range, then probe. -/
def create_listener (env : BindEnv) (pmin pmax sp0 : Int) (fuel : Nat) :
    List Int × Option CLOut :=
  let sp := if sp0 < pmin ∨ sp0 > pmax then pmin else sp0
  create_listener_loop env pmin pmax sp fuel sp false []

/-- Oracle under which port 10001 is in use and every other port binds. -/
def oddEnv : BindEnv :=
  ⟨fun p => if p = 10001 then .binuse else .bok, fun p => p + 100⟩

lemma create_twinlistener_cases (env : BindEnv) (port : Int) :
    (create_twinlistener env port).1 = 0 ∨
    (create_twinlistener env port).1 = -1 ∨
    (create_twinlistener env port).1 = -2 := by
  unfold create_twinlistener
  cases env.res port
  case bok =>
    cases env.res (port + 1) <;> simp
  all_goals simp

/-- Loop invariant proof for the allocator: with an even cursor inside an
even range, the loop terminates within the given fuel, probes only even
in-range ports, and every probed port except possibly the last failed
with `EADDRINUSE`/`EACCES`. -/
lemma create_listener_loop_spec (env : BindEnv) (pmin pmax sp0 : Int)
    (hmin : pmin % 2 = 0) (hmax : pmax % 2 = 0)
    (hsp1 : pmin ≤ sp0) (hsp2 : sp0 ≤ pmax) (hsp : sp0 % 2 = 0) :
    ∀ (fuel : Nat) (port : Int) (started : Bool) (tr : List Int),
    port % 2 = 0 → pmin ≤ port → port ≤ pmax →
    (started = false → port = sp0) →
    (∀ p ∈ tr, (create_twinlistener env p).1 = -2) →
    ((if started = true ∧ port ≤ sp0 then sp0 - port
      else pmax + 2 - port + (sp0 - pmin)) / 2).toNat < fuel →
    (create_listener_loop env pmin pmax sp0 fuel port started tr).2 ≠ none ∧
    (∀ p ∈ (create_listener_loop env pmin pmax sp0 fuel port started tr).1,
      p ∈ tr ∨ (p % 2 = 0 ∧ pmin ≤ p ∧ p ≤ pmax)) ∧
    (∀ p ∈ (create_listener_loop env pmin pmax sp0 fuel port started tr).1.dropLast,
      (create_twinlistener env p).1 = -2) := by
  intro fuel
  induction fuel with
  | zero =>
    intro port started tr _ _ _ _ _ hfuel
    omega
  | succ fuel ih =>
    intro port started tr heven hlo hhi hstart htr hfuel
    unfold create_listener_loop
    by_cases hexit : port = sp0 ∧ started = true
    · rw [if_pos hexit]
      exact ⟨by simp, fun p hp => Or.inl hp,
        fun p hp => htr p (List.dropLast_subset tr hp)⟩
    · rw [if_neg hexit]
      dsimp only
      by_cases hok : (create_twinlistener env port).1 = 0
      · rw [if_pos hok]
        refine ⟨by simp, ?_, ?_⟩
        · intro p hp
          rcases List.mem_append.mp hp with hp | hp
          · exact Or.inl hp
          · rcases List.mem_singleton.mp hp with rfl
            exact Or.inr ⟨heven, hlo, hhi⟩
        · intro p hp
          rw [List.dropLast_concat] at hp
          exact htr p hp
      · rw [if_neg hok]
        by_cases hbf : (create_twinlistener env port).1 = -1
        · rw [if_pos hbf]
          refine ⟨by simp, ?_, ?_⟩
          · intro p hp
            rcases List.mem_append.mp hp with hp | hp
            · exact Or.inl hp
            · rcases List.mem_singleton.mp hp with rfl
              exact Or.inr ⟨heven, hlo, hhi⟩
          · intro p hp
            rw [List.dropLast_concat] at hp
            exact htr p hp
        · rw [if_neg hbf]
          have hinuse : (create_twinlistener env port).1 = -2 := by
            rcases create_twinlistener_cases env port with h | h | h
            · exact absurd h hok
            · exact absurd h hbf
            · exact h
          have htr2 : ∀ p ∈ tr ++ [port],
              (create_twinlistener env p).1 = -2 := by
            intro p hp
            rcases List.mem_append.mp hp with hp | hp
            · exact htr p hp
            · rcases List.mem_singleton.mp hp with rfl
              exact hinuse
          by_cases hwrap : port ≥ pmax
          · rw [if_pos hwrap]
            have hport : port = pmax := by omega
            have hfuel2 : ((if true = true ∧ pmin - 2 + 2 ≤ sp0 then
                  sp0 - (pmin - 2 + 2)
                else pmax + 2 - (pmin - 2 + 2) + (sp0 - pmin)) / 2).toNat
                < fuel := by
              rw [if_pos ⟨rfl, by omega⟩]
              split at hfuel
              · rename_i hcond
                exact absurd ⟨by omega, hcond.1⟩ hexit
              · omega
            have := ih (pmin - 2 + 2) true (tr ++ [port]) (by omega)
              (by omega) (by omega) (by simp) htr2 hfuel2
            have hres : ∀ p
                , p ∈ (create_listener_loop env pmin pmax sp0 fuel
                    (pmin - 2 + 2) true (tr ++ [port])).1 →
                  p ∈ tr ∨ (p % 2 = 0 ∧ pmin ≤ p ∧ p ≤ pmax) := by
              intro p hp
              rcases this.2.1 p hp with hp2 | hp2
              · rcases List.mem_append.mp hp2 with hp3 | hp3
                · exact Or.inl hp3
                · rcases List.mem_singleton.mp hp3 with rfl
                  exact Or.inr ⟨heven, hlo, hhi⟩
              · exact Or.inr hp2
            exact ⟨this.1, hres, this.2.2⟩
          · rw [if_neg hwrap]
            have hfuel2 : ((if true = true ∧ port + 2 ≤ sp0 then
                  sp0 - (port + 2)
                else pmax + 2 - (port + 2) + (sp0 - pmin)) / 2).toNat
                < fuel := by
              by_cases hc2 : port + 2 ≤ sp0
              · rw [if_pos ⟨rfl, hc2⟩]
                split at hfuel <;> omega
              · rw [if_neg (fun h => hc2 h.2)]
                split at hfuel
                · rename_i hcond
                  exact absurd ⟨by omega, hcond.1⟩ hexit
                · omega
            have := ih (port + 2) true (tr ++ [port]) (by omega)
              (by omega) (by omega) (by simp) htr2 hfuel2
            have hres : ∀ p
                , p ∈ (create_listener_loop env pmin pmax sp0 fuel
                    (port + 2) true (tr ++ [port])).1 →
                  p ∈ tr ∨ (p % 2 = 0 ∧ pmin ≤ p ∧ p ≤ pmax) := by
              intro p hp
              rcases this.2.1 p hp with hp2 | hp2
              · rcases List.mem_append.mp hp2 with hp3 | hp3
                · exact Or.inl hp3
                · rcases List.mem_singleton.mp hp3 with rfl
                  exact Or.inr ⟨heven, hlo, hhi⟩
              · exact Or.inr hp2
            exact ⟨this.1, hres, this.2.2⟩

lemma create_twinlistener_closed (env : BindEnv) (port : Int) :
    (create_twinlistener env port).1 = 0 ∨
    (create_twinlistener env port).2 = (-1, -1) := by
  unfold create_twinlistener
  cases env.res port
  case bok =>
    cases env.res (port + 1) <;> simp
  all_goals simp

/-- Counterexample to C6 as stated: started from the odd in-range cursor
10001 (which the clamp does not touch), the allocator probes the odd ports
10001 and 10003 — 10003 even lying outside the configured range
[10000, 10002] — and returns the odd port 10003 when it binds.  So for an
arbitrary starting cursor the allocator does not probe only even in-range
candidates. -/
theorem claim_C6_counterexample :
    (create_listener oddEnv 10000 10002 10001 5).1 = [10001, 10003] ∧
    (10001 : Int) % 2 ≠ 0 ∧ (10003 : Int) % 2 ≠ 0 ∧
    ¬ ((10003 : Int) ≤ 10002) ∧
    (create_listener oddEnv 10000 10002 10001 5).2 =
      some (.clok 10003 10103 10104) := by
  refine ⟨?_, by decide, by decide, by decide, ?_⟩ <;> rfl

/-- C6 (amended): for an even starting cursor — the only cursor values the
program produces, since both bounds are rounded to even at startup and the
cursor always advances by `lport + 2` — the allocator probes only even
ports inside `[port_min, port_max]`, stepping by 2 and wrapping at
`port_max`; it terminates within one full revolution of the cursor (fuel
`(port_max - port_min)/2 + 2` never runs out); every probed port except
possibly the last failed with `EADDRINUSE`/`EACCES` (any other failure
stops the probing immediately); and in every failure of the twin-port
bind both sockets of the probed pair are closed. -/
theorem claim_C6 (env : BindEnv) (pmin pmax sp0 : Int)
    (hmin : pmin % 2 = 0) (hmax : pmax % 2 = 0) (hle : pmin ≤ pmax)
    (hsp : sp0 % 2 = 0) :
    (create_listener env pmin pmax sp0 ((pmax - pmin) / 2 + 2).toNat).2 ≠
      none ∧
    (∀ p ∈ (create_listener env pmin pmax sp0
        ((pmax - pmin) / 2 + 2).toNat).1,
      p % 2 = 0 ∧ pmin ≤ p ∧ p ≤ pmax) ∧
    (∀ p ∈ (create_listener env pmin pmax sp0
        ((pmax - pmin) / 2 + 2).toNat).1.dropLast,
      (create_twinlistener env p).1 = -2) ∧
    (∀ port : Int, (create_twinlistener env port).1 ≠ 0 →
      (create_twinlistener env port).2 = (-1, -1)) := by
  unfold create_listener
  dsimp only
  set sp := if sp0 < pmin ∨ sp0 > pmax then pmin else sp0 with hspdef
  have hsp_even : sp % 2 = 0 := by
    rw [hspdef]
    split <;> omega
  have hsp_lo : pmin ≤ sp := by
    rw [hspdef]
    split <;> omega
  have hsp_hi : sp ≤ pmax := by
    rw [hspdef]
    split <;> omega
  have hmain := create_listener_loop_spec env pmin pmax sp hmin hmax
    hsp_lo hsp_hi hsp_even ((pmax - pmin) / 2 + 2).toNat sp false []
    hsp_even hsp_lo hsp_hi (fun _ => rfl) (by simp) (by
      rw [if_neg (fun h => Bool.false_ne_true h.1)]
      omega)
  refine ⟨hmain.1, ?_, hmain.2.2,
    fun port h => (create_twinlistener_closed env port).resolve_left h⟩
  intro p hp
  rcases hmain.2.1 p hp with hp2 | hp2
  · exact absurd hp2 (List.not_mem_nil p)
  · exact hp2

/-- Oracle under which every port binds successfully. -/
def evenEnv : BindEnv :=
  ⟨fun _ => .bok, fun p => p⟩

/-- Witness for C6 (amended) on a concrete even range and cursor. -/
theorem claim_C6_witness :
    (create_listener evenEnv 10000 10010 10004
      (((10010 - 10000 : Int)) / 2 + 2).toNat).2 ≠ none :=
  (claim_C6 evenEnv 10000 10010 10004 (by decide) (by decide) (by decide)
    (by decide)).1

/-! ## Poll set and session table

The parallel arrays `cf->pfds[]` / `cf->sessions[]` are fused into one
list of slots (they are always written in lockstep); index 0 is the
control-channel slot.  Sessions are stored by identifier in a total map
`smap`; a session is *live* exactly when some slot of the table points at
it (`remove_session` frees the struct after clearing its slots).  A
session record carries the fields that `append_session`,
`remove_session`, the compaction in `process_rtp` and `alarmhandler`
touch. -/

structure PSlot where
  fd : Int
  events : Bool
  sess : Option Nat
deriving DecidableEq

structure PSession where
  fds : Fin 2 → Int
  sidx : Fin 2 → Int
  ttl : Int
  rtcp : Option Nat

structure PState where
  slots : List PSlot
  smap : Nat → PSession

/-- Slot lookup; out-of-range reads return a cleared slot. -/
def slotAt (st : PState) (k : Nat) : PSlot :=
  st.slots.getD k ⟨-1, false, none⟩

/-- The poll-set position `sp->sidx[i]` as an index. -/
def legSlot (st : PState) (sid : Nat) (i : Fin 2) : Nat :=
  ((st.smap sid).sidx i).toNat

/-- Model of `append_session` (src/main.c lines 119-133): when side
`index` has a socket, push its descriptor on the poll set and the session
pointer on the parallel array, and store the slot position in
`sp->sidx[index]`; otherwise mark the side as unslotted. -/
def append_session (st : PState) (sid : Nat) (i : Fin 2) : PState :=
  let sp := st.smap sid
  if sp.fds i ≠ -1 then
    let sp2 := { sp with sidx := Function.update sp.sidx i (st.slots.length : Int) }
    { slots := st.slots ++ [⟨sp.fds i, true, some sid⟩],
      smap := Function.update st.smap sid sp2 }
  else
    let sp2 := { sp with sidx := Function.update sp.sidx i (-1) }
    { st with smap := Function.update st.smap sid sp2 }

/-- One clearing step of `remove_session` (src/main.c lines 188-203): if
side `i` of the session has a socket, set the poll slot at `sidx[i]` to
`fd = -1`, clear its events and null the session pointer, all in one
write. -/
def clear_leg (st : PState) (sid : Nat) (i : Fin 2) : PState :=
  let sp := st.smap sid
  if sp.fds i ≠ -1 then
    { st with slots := st.slots.set (legSlot st sid i) ⟨-1, false, none⟩ }
  else st

/-- Model of `remove_session` (src/main.c lines 170-222): clear, for each
side, the poll slots of the RTP session and of its RTCP twin (the struct
itself is freed afterwards, so liveness is "referenced from the table").
The source dereferences `sp->rtcp` unconditionally; it is only ever
called on RTP sessions, whose twin link is set. -/
def remove_session (st : PState) (sid : Nat) : PState :=
  match (st.smap sid).rtcp with
  | some tid =>
    clear_leg (clear_leg (clear_leg (clear_leg st sid 0) tid 0) sid 1) tid 1
  | none => clear_leg (clear_leg st sid 0) sid 1

lemma clear_leg_slots_length (st : PState) (sid : Nat) (i : Fin 2) :
    (clear_leg st sid i).slots.length = st.slots.length := by
  unfold clear_leg
  dsimp only
  split <;> simp

lemma clear_leg_smap (st : PState) (sid : Nat) (i : Fin 2) :
    (clear_leg st sid i).smap = st.smap := by
  unfold clear_leg
  dsimp only
  split <;> rfl

lemma remove_session_slots_length (st : PState) (sid : Nat) :
    (remove_session st sid).slots.length = st.slots.length := by
  unfold remove_session
  split <;> simp [clear_leg_slots_length]

lemma remove_session_smap (st : PState) (sid : Nat) :
    (remove_session st sid).smap = st.smap := by
  unfold remove_session
  split <;> simp [clear_leg_smap]

/-- The in-place compaction loop of `process_rtp` (src/main.c lines
1454-1491): walk the poll set from slot 1, counting cleared slots in
`skipfd`; move every live slot left by `skipfd` positions, store the new
position into the owning session's `sidx` for the leg whose descriptor
this slot carries, and finally drop the trailing `skipfd` slots
(`cf->nsessions -= skipfd`).  The (unreachable under the invariant)
readings of a null session pointer take session 0. -/
def compactLoop (st : PState) (readyfd skipfd : Nat) : PState :=
  if h : readyfd < st.slots.length then
    let slot := st.slots.get ⟨readyfd, h⟩
    if slot.fd = -1 then
      compactLoop st (readyfd + 1) (skipfd + 1)
    else
      let sid := slot.sess.getD 0
      let sp := st.smap sid
      let ridx : Fin 2 := if slot.fd = sp.fds 0 then 0 else 1
      let newidx : Int := ((readyfd - skipfd : Nat) : Int)
      let sp2 := { sp with sidx := Function.update sp.sidx ridx newidx }
      let st2 := if 0 < skipfd then
          { slots := st.slots.set (readyfd - skipfd) slot,
            smap := Function.update st.smap sid sp2 }
        else st
      compactLoop st2 (readyfd + 1) skipfd
  else
    { st with slots := st.slots.take (st.slots.length - skipfd) }
termination_by st.slots.length - readyfd
decreasing_by
  all_goals
    (repeat' split) <;> simp [List.length_set] <;> omega

/-- The forwarder pass compaction starts at slot 1 with no skips. -/
def process_rtp_pass (st : PState) : PState :=
  compactLoop st 1 0

/-- The `sp->ttl--` write of the housekeeper. -/
def ttlDec (st : PState) (sid : Nat) : PState :=
  let sp := st.smap sid
  let sp2 := { sp with ttl := sp.ttl - 1 }
  { st with smap := Function.update st.smap sid sp2 }

lemma ttlDec_slots (st : PState) (sid : Nat) :
    (ttlDec st sid).slots = st.slots := rfl

/-- The housekeeper loop of `alarmhandler` (src/main.c lines 150-168):
walk slots from 1; skip empty slots, RTCP sessions (`rtcp == NULL`) and
duplicate appearances (`sidx[0] != i`); remove sessions whose ttl reached
0, decrement the others. -/
def alarmLoop (st : PState) (i : Nat) : PState :=
  if h : i < st.slots.length then
    let st2 := match (st.slots.get ⟨i, h⟩).sess with
      | none => st
      | some sid =>
        let sp := st.smap sid
        if sp.rtcp = none ∨ sp.sidx 0 ≠ (i : Int) then st
        else if sp.ttl = 0 then remove_session st sid
        else ttlDec st sid
    alarmLoop st2 (i + 1)
  else st
termination_by st.slots.length - i
decreasing_by
  all_goals
    (repeat' split) <;>
      simp [List.length_set, remove_session_slots_length, ttlDec_slots] <;>
      omega

def alarmhandler (st : PState) : PState :=
  alarmLoop st 1

/-- Decidability helper for quantification over an optional value. -/
def decOptForall {α : Type} {Q : α → Prop} [DecidablePred Q] :
    (o : Option α) → Decidable (∀ x, o = some x → Q x)
  | none => isTrue (by simp)
  | some v => decidable_of_iff (Q v) (by simp)

instance {α : Type} {Q : α → Prop} [DecidablePred Q] (o : Option α) :
    Decidable (∀ x, o = some x → Q x) :=
  decOptForall o

/-- Membership of slot `k` in the well-formed region of the table while
the compaction has a compacted prefix ending at `a` and a garbage window
`[a, b)`; in a quiescent state `a = b` and this is just `1 ≤ k < n`. -/
def goodK (a b n k : Nat) : Prop :=
  1 ≤ k ∧ k < n ∧ (k < a ∨ b ≤ k)

instance (a b n k : Nat) : Decidable (goodK a b n k) := by
  unfold goodK
  infer_instance

/-- The forward half of the poll-set invariant for one session leg:
`sidx[i]` is a valid in-region slot holding exactly `fds[i]`, and the
parallel sessions entry there points back at the session. -/
def legFwd (st : PState) (a b : Nat) (sid : Nat) (i : Fin 2) : Prop :=
  0 ≤ (st.smap sid).sidx i ∧
  goodK a b st.slots.length (legSlot st sid i) ∧
  (slotAt st (legSlot st sid i)).fd = (st.smap sid).fds i ∧
  (slotAt st (legSlot st sid i)).sess = some sid

instance (st : PState) (a b sid : Nat) (i : Fin 2) :
    Decidable (legFwd st a b sid i) := by
  unfold legFwd
  infer_instance

/-- Two live sides of one session never share one descriptor. -/
def fdsDistinct (st : PState) (sid : Nat) : Prop :=
  ¬((st.smap sid).fds 0 ≠ -1 ∧ (st.smap sid).fds 0 = (st.smap sid).fds 1)

instance (st : PState) (sid : Nat) : Decidable (fdsDistinct st sid) := by
  unfold fdsDistinct
  infer_instance

/-- Per-slot clauses of the poll-set invariant.  `exs` names one session
leg that is exempted (the leg `append_session` is about to insert); in
the plain invariant it is `none`.  A populated slot is owned by exactly
the leg whose `sidx` stores its position, a cleared slot carries no
session pointer, and every live leg of a session reachable from the table
is correctly slotted. -/
def slotClause (st : PState) (a b : Nat) (exs : Option (Nat × Fin 2))
    (k : Nat) : Prop :=
  -1 ≤ (slotAt st k).fd ∧
  ((slotAt st k).sess = none → (slotAt st k).fd = -1) ∧
  (∀ sid, (slotAt st k).sess = some sid →
    fdsDistinct st sid ∧
    (∃ i : Fin 2, (st.smap sid).sidx i = (k : Int) ∧
      (st.smap sid).fds i = (slotAt st k).fd ∧
      (st.smap sid).fds i ≠ -1 ∧ exs ≠ some (sid, i)) ∧
    (∀ i : Fin 2, (st.smap sid).fds i ≠ -1 →
      exs = some (sid, i) ∨ legFwd st a b sid i))

instance (st : PState) (a b : Nat) (exs : Option (Nat × Fin 2)) (k : Nat) :
    Decidable (slotClause st a b exs k) := by
  unfold slotClause
  infer_instance

/-- The poll-set / session-table invariant, parametrized by the compaction
window `[a, b)` and an optional exempted leg. -/
def pollWFgen (st : PState) (a b : Nat) (exs : Option (Nat × Fin 2)) :
    Prop :=
  1 ≤ a ∧ a ≤ b ∧ b ≤ st.slots.length ∧
  (slotAt st 0).sess = none ∧ (slotAt st 0).fd ≠ -1 ∧
  ∀ k, k < st.slots.length → goodK a b st.slots.length k →
    slotClause st a b exs k

instance (st : PState) (a b : Nat) (exs : Option (Nat × Fin 2)) :
    Decidable (pollWFgen st a b exs) := by
  unfold pollWFgen
  infer_instance

/-- The quiescent poll-set invariant of the running proxy. -/
def pollWF (st : PState) : Prop :=
  pollWFgen st 1 1 none

instance (st : PState) : Decidable (pollWF st) := by
  unfold pollWF
  infer_instance

/-- The invariant exactly as the specification states it: for every
session reachable from the table and side with a live descriptor, the
poll-set entry at `sidx[i]` holds exactly `fds[i]` and the parallel
sessions entry points back at the session. -/
def pollInv (st : PState) : Prop :=
  ∀ k, k < st.slots.length → ∀ sid, (slotAt st k).sess = some sid →
    ∀ i : Fin 2, 0 ≤ (st.smap sid).fds i →
      (slotAt st (legSlot st sid i)).fd = (st.smap sid).fds i ∧
      (slotAt st (legSlot st sid i)).sess = some sid

lemma pollWF_implies_pollInv (st : PState) (h : pollWF st) : pollInv st := by
  intro k hk sid hsid i hfd
  have hgood : goodK 1 1 st.slots.length k := by
    unfold goodK
    rcases Nat.eq_zero_or_pos k with rfl | hpos
    · rw [h.2.2.2.1] at hsid
      exact absurd hsid (by simp)
    · omega
  have hcl := (h.2.2.2.2.2 k hk hgood).2.2 sid hsid
  have hfwd := hcl.2.2 i (by omega)
  rcases hfwd with hex | hfwd
  · exact absurd hex (by simp)
  · exact ⟨hfwd.2.2.1, hfwd.2.2.2⟩

lemma goodK_full (n k : Nat) : goodK 1 1 n k ↔ 1 ≤ k ∧ k < n := by
  unfold goodK
  omega

/-- Appending one session side preserves the poll-set invariant.  The
hypotheses are the call-site facts: the invariant holds with the appended
leg exempted (no slot owns it yet), the descriptor is a real one or -1,
the two sides hold distinct live descriptors, and any other live side of
this session is already correctly slotted. -/
lemma append_session_wf (st : PState) (sid : Nat) (i : Fin 2)
    (hwf : pollWFgen st 1 1 (some (sid, i)))
    (hfd : (st.smap sid).fds i = -1 ∨ 0 ≤ (st.smap sid).fds i)
    (hdist : fdsDistinct st sid)
    (hother : ∀ j : Fin 2, j ≠ i → (st.smap sid).fds j ≠ -1 →
      legFwd st 1 1 sid j) :
    pollWF (append_session st sid i) := by
  obtain ⟨-, -, hble, hs0se, hs0fd, hslots⟩ := hwf
  unfold pollWF
  unfold append_session
  dsimp only
  by_cases hlive : (st.smap sid).fds i ≠ -1
  · rw [if_pos hlive]
    have hfdnn : 0 ≤ (st.smap sid).fds i := by
      rcases hfd with hfd | hfd
      · exact absurd hfd hlive
      · exact hfd
    set n := st.slots.length with hn
    set x : PSlot := ⟨(st.smap sid).fds i, true, some sid⟩ with hx
    set sp2 : PSession :=
      { st.smap sid with
        sidx := Function.update (st.smap sid).sidx i (n : Int) } with hsp2
    set st2 : PState :=
      { slots := st.slots ++ [x], smap := Function.update st.smap sid sp2 }
      with hst2
    have hlen : st2.slots.length = n + 1 := by
      rw [hst2]
      simp
    have hsm_ne : ∀ s, s ≠ sid → st2.smap s = st.smap s := by
      intro s hs
      rw [hst2]
      exact Function.update_noteq hs _ _
    have hsm_sid : st2.smap sid = sp2 := by
      rw [hst2]
      exact Function.update_same _ _ _
    have hfds_sid : sp2.fds = (st.smap sid).fds := by rw [hsp2]
    have hsidx_i : sp2.sidx i = (n : Int) := by
      rw [hsp2]
      exact Function.update_same _ _ _
    have hsidx_ne : ∀ j : Fin 2, j ≠ i → sp2.sidx j = (st.smap sid).sidx j := by
      intro j hj
      rw [hsp2]
      exact Function.update_noteq hj _ _
    have hslot_lt : ∀ k, k < n → slotAt st2 k = slotAt st k := by
      intro k hk
      unfold slotAt
      rw [hst2]
      exact List.getD_append _ _ _ _ hk
    have hslot_n : slotAt st2 n = x := by
      unfold slotAt
      rw [hst2]
      dsimp only
      rw [List.getD_append_right _ _ _ _ (le_refl _)]
      simp
    -- the transported forward property of a leg of any session
    have hlegf : ∀ s (j : Fin 2), legFwd st 1 1 s j →
        (s = sid → j ≠ i) → legFwd st2 1 1 s j := by
      intro s j hleg hsj
      obtain ⟨h1, h2, h3, h4⟩ := hleg
      rw [goodK_full] at h2
      have hms : st2.smap s = st.smap s ∨ (s = sid ∧ st2.smap s = sp2) := by
        by_cases hcs : s = sid
        · exact Or.inr ⟨hcs, by rw [hcs, hsm_sid]⟩
        · exact Or.inl (hsm_ne s hcs)
      have hsidx_s : (st2.smap s).sidx j = (st.smap s).sidx j := by
        rcases hms with hms | ⟨hcs, hms⟩
        · rw [hms]
        · rw [hms, hcs, hsidx_ne j (hsj hcs)]
      have hfds_s : (st2.smap s).fds j = (st.smap s).fds j := by
        rcases hms with hms | ⟨hcs, hms⟩
        · rw [hms]
        · rw [hms, hfds_sid, hcs]
      have hls : legSlot st2 s j = legSlot st s j := by
        unfold legSlot
        rw [hsidx_s]
      refine ⟨by rw [hsidx_s]; exact h1, ?_, ?_, ?_⟩
      · rw [goodK_full, hls, hlen]
        omega
      · rw [hls, hslot_lt _ h2.2, h3, hfds_s]
      · rw [hls, hslot_lt _ h2.2, h4]
    -- the new leg is correctly slotted
    have hnewleg : legFwd st2 1 1 sid i := by
      have hls : legSlot st2 sid i = n := by
        unfold legSlot
        rw [hsm_sid, hsidx_i]
        simp
      refine ⟨by rw [hsm_sid, hsidx_i]; exact Int.ofNat_nonneg n, ?_, ?_, ?_⟩
      · rw [goodK_full, hls, hlen]
        have : 1 ≤ n := by omega
        omega
      · rw [hls, hslot_n, hsm_sid, hfds_sid]
      · rw [hls, hslot_n]
    refine ⟨le_refl 1, le_refl 1, by omega, ?_, ?_, ?_⟩
    · rw [hslot_lt 0 (by omega)]
      exact hs0se
    · rw [hslot_lt 0 (by omega)]
      exact hs0fd
    · intro k hk hgood
      rw [hlen] at hk
      rw [goodK_full] at hgood
      by_cases hkn : k = n
      · subst hkn
        unfold slotClause
        have hminus : -1 ≤ (st.smap sid).fds i := by omega
        refine ⟨?_, ?_, ?_⟩
        · rw [hslot_n, hx]
          exact hminus
        · rw [hslot_n]
          intro hcon
          exact absurd hcon (by rw [hx]; simp)
        · intro s hs
          rw [hslot_n] at hs
          have hssid : s = sid := by
            rw [hx] at hs
            exact (Option.some_inj.mp hs).symm
          subst hssid
          refine ⟨?_, ?_, ?_⟩
          · unfold fdsDistinct at hdist ⊢
            rw [hsm_sid, hfds_sid]
            exact hdist
          · refine ⟨i, ?_, ?_, ?_, by simp⟩
            · rw [hsm_sid, hsidx_i]
            · rw [hsm_sid, hfds_sid, hslot_n]
            · rw [hsm_sid, hfds_sid]
              exact hlive
          · intro j hj
            rw [hsm_sid, hfds_sid] at hj
            by_cases hji : j = i
            · subst hji
              exact Or.inr hnewleg
            · exact Or.inr (hlegf _ j (hother j hji hj) (fun _ => hji))
      · have hkn2 : k < n := by omega
        have hclk := hslots k hkn2 (by rw [goodK_full]; omega)
        obtain ⟨hv, hnone, hsome⟩ := hclk
        unfold slotClause
        rw [hslot_lt k hkn2]
        refine ⟨hv, hnone, ?_⟩
        intro s hs
        obtain ⟨hdst, ⟨j, hj1, hj2, hj3, hj4⟩, hfwd⟩ := hsome s hs
        have hnotsj : s = sid → j ≠ i := by
          intro hcs hji
          exact hj4 (by rw [hcs, hji])
        have hsidx_s : (st2.smap s).sidx j = (st.smap s).sidx j := by
          by_cases hcs : s = sid
          · rw [hcs, hsm_sid, hsidx_ne j (hnotsj hcs)]
          · rw [hsm_ne s hcs]
        have hfds_s : (st2.smap s).fds = (st.smap s).fds := by
          by_cases hcs : s = sid
          · rw [hcs, hsm_sid, hfds_sid]
          · rw [hsm_ne s hcs]
        refine ⟨?_, ⟨j, ?_, ?_, ?_, by simp⟩, ?_⟩
        · unfold fdsDistinct at hdst ⊢
          rw [hfds_s]
          exact hdst
        · rw [hsidx_s]
          exact hj1
        · rw [hfds_s, hj2]
        · rw [hfds_s]
          exact hj3
        · intro j2 hj2f
          rw [hfds_s] at hj2f
          by_cases hcase : s = sid ∧ j2 = i
          · rw [hcase.1, hcase.2]
            exact Or.inr hnewleg
          · rcases hfwd j2 hj2f with hex | hleg
            · exfalso
              have hpair := Option.some_inj.mp hex
              have hq1 : sid = s := congrArg Prod.fst hpair
              have hq2 : i = j2 := congrArg Prod.snd hpair
              exact hcase ⟨hq1.symm, hq2.symm⟩
            · exact Or.inr (hlegf s j2 hleg (fun hcs hji => hcase ⟨hcs, hji⟩))
  · rw [if_neg hlive]
    have hlive2 : (st.smap sid).fds i = -1 := by
      by_contra hc
      exact hlive hc
    set sp2 : PSession :=
      { st.smap sid with
        sidx := Function.update (st.smap sid).sidx i (-1) } with hsp2
    set st2 : PState :=
      { st with smap := Function.update st.smap sid sp2 } with hst2
    have hlen : st2.slots.length = st.slots.length := by rw [hst2]
    have hslots_eq : ∀ k, slotAt st2 k = slotAt st k := by
      intro k
      unfold slotAt
      rw [hst2]
    have hsm_ne : ∀ s, s ≠ sid → st2.smap s = st.smap s := by
      intro s hs
      rw [hst2]
      exact Function.update_noteq hs _ _
    have hsm_sid : st2.smap sid = sp2 := by
      rw [hst2]
      exact Function.update_same _ _ _
    have hfds_sid : sp2.fds = (st.smap sid).fds := by rw [hsp2]
    have hsidx_ne : ∀ j : Fin 2, j ≠ i → sp2.sidx j = (st.smap sid).sidx j := by
      intro j hj
      rw [hsp2]
      exact Function.update_noteq hj _ _
    have hlegf : ∀ s (j : Fin 2), legFwd st 1 1 s j →
        (s = sid → j ≠ i) → legFwd st2 1 1 s j := by
      intro s j hleg hsj
      obtain ⟨h1, h2, h3, h4⟩ := hleg
      have hsidx_s : (st2.smap s).sidx j = (st.smap s).sidx j := by
        by_cases hcs : s = sid
        · rw [hcs, hsm_sid, hsidx_ne j (hsj hcs)]
        · rw [hsm_ne s hcs]
      have hfds_s : (st2.smap s).fds j = (st.smap s).fds j := by
        by_cases hcs : s = sid
        · rw [hcs, hsm_sid, hfds_sid]
        · rw [hsm_ne s hcs]
      have hls : legSlot st2 s j = legSlot st s j := by
        unfold legSlot
        rw [hsidx_s]
      refine ⟨by rw [hsidx_s]; exact h1, ?_, ?_, ?_⟩
      · rw [hls]
        unfold goodK at h2 ⊢
        rw [hlen]
        exact h2
      · rw [hls, hslots_eq, h3, hfds_s]
      · rw [hls, hslots_eq, h4]
    refine ⟨le_refl 1, le_refl 1, by rw [hlen]; omega, ?_, ?_, ?_⟩
    · rw [hslots_eq]
      exact hs0se
    · rw [hslots_eq]
      exact hs0fd
    · intro k hk hgood
      rw [hlen] at hk
      have hclk := hslots k hk (by
        unfold goodK at hgood ⊢
        rw [hlen] at hgood
        exact hgood)
      obtain ⟨hv, hnone, hsome⟩ := hclk
      unfold slotClause
      rw [hslots_eq]
      refine ⟨hv, hnone, ?_⟩
      intro s hs
      obtain ⟨hdst, ⟨j, hj1, hj2, hj3, hj4⟩, hfwd⟩ := hsome s hs
      have hnotsj : s = sid → j ≠ i := by
        intro hcs hji
        exact hj4 (by rw [hcs, hji])
      have hsidx_s : (st2.smap s).sidx j = (st.smap s).sidx j := by
        by_cases hcs : s = sid
        · rw [hcs, hsm_sid, hsidx_ne j (hnotsj hcs)]
        · rw [hsm_ne s hcs]
      have hfds_s : (st2.smap s).fds = (st.smap s).fds := by
        by_cases hcs : s = sid
        · rw [hcs, hsm_sid, hfds_sid]
        · rw [hsm_ne s hcs]
      refine ⟨?_, ⟨j, ?_, ?_, ?_, by simp⟩, ?_⟩
      · unfold fdsDistinct at hdst ⊢
        rw [hfds_s]
        exact hdst
      · rw [hsidx_s]
        exact hj1
      · rw [hfds_s, hj2]
      · rw [hfds_s]
        exact hj3
      · intro j2 hj2f
        rw [hfds_s] at hj2f
        by_cases hcase : s = sid ∧ j2 = i
        · rw [hcase.1, hcase.2] at hj2f
          exact absurd hlive2 hj2f
        · rcases hfwd j2 hj2f with hex | hleg
          · exfalso
            have hpair := Option.some_inj.mp hex
            have hq1 : sid = s := congrArg Prod.fst hpair
            have hq2 : i = j2 := congrArg Prod.snd hpair
            exact hcase ⟨hq1.symm, hq2.symm⟩
          · exact Or.inr (hlegf s j2 hleg (fun hcs hji => hcase ⟨hcs, hji⟩))

lemma legSlot_clear (st : PState) (s0 : Nat) (i0 : Fin 2) (s : Nat)
    (j : Fin 2) : legSlot (clear_leg st s0 i0) s j = legSlot st s j := by
  unfold legSlot
  rw [clear_leg_smap]

lemma clear_leg_slotAt (st : PState) (sid : Nat) (i : Fin 2) (k : Nat) :
    slotAt (clear_leg st sid i) k =
      if (st.smap sid).fds i ≠ -1 ∧ k = legSlot st sid i ∧
          k < st.slots.length then ⟨-1, false, none⟩
      else slotAt st k := by
  unfold clear_leg
  dsimp only
  split
  · rename_i hfd
    unfold slotAt
    dsimp only
    by_cases hk : legSlot st sid i = k
    · by_cases hlt : k < st.slots.length
      · rw [if_pos ⟨hfd, hk.symm, hlt⟩]
        simp only [List.getD_eq_getElem?_getD, List.getElem?_set]
        rw [if_pos hk, if_pos (hk ▸ hlt)]
        rfl
      · rw [if_neg (fun hC => hlt hC.2.2)]
        have hge : st.slots.length ≤ k := by omega
        rw [List.getD_eq_getElem?_getD, List.getD_eq_getElem?_getD,
          List.getElem?_eq_none (by simpa using hge),
          List.getElem?_eq_none hge]
    · rw [if_neg (fun hC => hk hC.2.1.symm)]
      simp only [List.getD_eq_getElem?_getD, List.getElem?_set]
      rw [if_neg hk]
  · rename_i hfd
    rw [if_neg (fun hC => hfd hC.1)]

/-- The poll-set positions cleared by `remove_session`: the slots of the
live sides of the RTP session and of its RTCP twin. -/
def clearedPos (st : PState) (sid tid : Nat) (k : Nat) : Prop :=
  k < st.slots.length ∧
  (((st.smap sid).fds 0 ≠ -1 ∧ k = legSlot st sid 0) ∨
   ((st.smap sid).fds 1 ≠ -1 ∧ k = legSlot st sid 1) ∨
   ((st.smap tid).fds 0 ≠ -1 ∧ k = legSlot st tid 0) ∨
   ((st.smap tid).fds 1 ≠ -1 ∧ k = legSlot st tid 1))

instance (st : PState) (sid tid k : Nat) :
    Decidable (clearedPos st sid tid k) := by
  unfold clearedPos
  infer_instance

lemma remove_session_slotAt (st : PState) (sid tid : Nat)
    (h : (st.smap sid).rtcp = some tid) (k : Nat) :
    slotAt (remove_session st sid) k =
      if clearedPos st sid tid k then ⟨-1, false, none⟩
      else slotAt st k := by
  unfold remove_session
  rw [h]
  rw [clear_leg_slotAt, clear_leg_slotAt, clear_leg_slotAt, clear_leg_slotAt]
  simp only [clear_leg_smap, clear_leg_slots_length, legSlot_clear]
  unfold clearedPos
  split_ifs <;> first | rfl | tauto

lemma legSlot_remove (st : PState) (sid : Nat) (s : Nat) (j : Fin 2) :
    legSlot (remove_session st sid) s j = legSlot st s j := by
  unfold legSlot
  rw [remove_session_smap]

/-- A slot that references a session is the slot of one of its live legs
(backward clause of the invariant, restated through `legSlot`). -/
lemma refs_are_legs (st : PState) (hwf : pollWF st) (k : Nat)
    (hk : k < st.slots.length) (hk1 : 1 ≤ k) (s : Nat)
    (hs : (slotAt st k).sess = some s) :
    ∃ j : Fin 2, (st.smap s).fds j ≠ -1 ∧ k = legSlot st s j := by
  obtain ⟨-, -, -, -, -, hslots⟩ := hwf
  obtain ⟨-, ⟨j, hj1, -, hj3, -⟩, -⟩ :=
    (hslots k hk (by rw [goodK_full]; omega)).2.2 s hs
  refine ⟨j, hj3, ?_⟩
  unfold legSlot
  rw [hj1]
  simp

/-- A referenced session has all its live legs correctly slotted. -/
lemma refs_fwd (st : PState) (hwf : pollWF st) (s : Nat)
    (href : ∃ k, k < st.slots.length ∧ (slotAt st k).sess = some s) :
    ∀ j : Fin 2, (st.smap s).fds j ≠ -1 → legFwd st 1 1 s j := by
  obtain ⟨k, hk, hsess⟩ := href
  have hk1 : 1 ≤ k := by
    rcases Nat.eq_zero_or_pos k with rfl | hpos
    · rw [hwf.2.2.2.1] at hsess
      exact absurd hsess (by simp)
    · omega
  intro j hj
  obtain ⟨-, -, -, -, -, hslots⟩ := hwf
  obtain ⟨-, -, hfwd⟩ :=
    (hslots k hk (by rw [goodK_full]; omega)).2.2 s hsess
  rcases hfwd j hj with hex | hleg
  · exact absurd hex (by simp)
  · exact hleg

/-- Removing a session (with its RTCP twin) preserves the poll-set
invariant.  `href` says the session is live; `htref` that the twin is
live or entirely socketless. -/
lemma remove_session_wf (st : PState) (sid tid : Nat)
    (hwf : pollWF st)
    (hrt : (st.smap sid).rtcp = some tid)
    (href : ∃ k, k < st.slots.length ∧ (slotAt st k).sess = some sid)
    (htref : (∃ k, k < st.slots.length ∧ (slotAt st k).sess = some tid) ∨
      (∀ j : Fin 2, (st.smap tid).fds j = -1)) :
    pollWF (remove_session st sid) := by
  have hsfwd := refs_fwd st hwf sid href
  have htfwd : ∀ j : Fin 2, (st.smap tid).fds j ≠ -1 → legFwd st 1 1 tid j := by
    rcases htref with htref | hdead
    · exact refs_fwd st hwf tid htref
    · intro j hj
      exact absurd (hdead j) hj
  -- cleared positions carry the sid / tid session pointer and sit at 1 ≤ k
  have hPsess : ∀ k, clearedPos st sid tid k →
      ((slotAt st k).sess = some sid ∨ (slotAt st k).sess = some tid) ∧
      1 ≤ k := by
    intro k hkP
    obtain ⟨hkn, hdis⟩ := hkP
    rcases hdis with ⟨hf, hkeq⟩ | ⟨hf, hkeq⟩ | ⟨hf, hkeq⟩ | ⟨hf, hkeq⟩
    · obtain ⟨-, hg, -, hse⟩ := hsfwd 0 hf
      rw [goodK_full] at hg
      exact ⟨Or.inl (by rw [hkeq]; exact hse), by omega⟩
    · obtain ⟨-, hg, -, hse⟩ := hsfwd 1 hf
      rw [goodK_full] at hg
      exact ⟨Or.inl (by rw [hkeq]; exact hse), by omega⟩
    · obtain ⟨-, hg, -, hse⟩ := htfwd 0 hf
      rw [goodK_full] at hg
      exact ⟨Or.inr (by rw [hkeq]; exact hse), by omega⟩
    · obtain ⟨-, hg, -, hse⟩ := htfwd 1 hf
      rw [goodK_full] at hg
      exact ⟨Or.inr (by rw [hkeq]; exact hse), by omega⟩
  -- positions referencing sid / tid are exactly the cleared ones
  have hrefP : ∀ k, k < st.slots.length → 1 ≤ k →
      ((slotAt st k).sess = some sid ∨ (slotAt st k).sess = some tid) →
      clearedPos st sid tid k := by
    intro k hkn hk1 hsess
    rcases hsess with hsess | hsess
    · obtain ⟨j, hj1, hj2⟩ := refs_are_legs st hwf k hkn hk1 sid hsess
      refine ⟨hkn, ?_⟩
      rcases Fin.exists_fin_two.mp ⟨j, rfl⟩ with h | h
      all_goals
        first
          | (exact Or.inl ⟨by rwa [← h], by rwa [← h]⟩)
          | (exact Or.inr (Or.inl ⟨by rwa [← h], by rwa [← h]⟩))
    · obtain ⟨j, hj1, hj2⟩ := refs_are_legs st hwf k hkn hk1 tid hsess
      refine ⟨hkn, ?_⟩
      rcases Fin.exists_fin_two.mp ⟨j, rfl⟩ with h | h
      all_goals
        first
          | (exact Or.inr (Or.inr (Or.inl ⟨by rwa [← h], by rwa [← h]⟩)))
          | (exact Or.inr (Or.inr (Or.inr ⟨by rwa [← h], by rwa [← h]⟩)))
  obtain ⟨-, -, hble, hs0se, hs0fd, hslots⟩ := hwf
  have h0notP : ¬ clearedPos st sid tid 0 := by
    intro hc
    have := (hPsess 0 hc).2
    omega
  refine ⟨le_refl 1, le_refl 1, ?_, ?_, ?_, ?_⟩
  · rw [remove_session_slots_length]
    exact hble
  · rw [remove_session_slotAt st sid tid hrt 0, if_neg h0notP]
    exact hs0se
  · rw [remove_session_slotAt st sid tid hrt 0, if_neg h0notP]
    exact hs0fd
  · intro k hk hgood
    rw [remove_session_slots_length] at hk hgood
    rw [goodK_full] at hgood
    unfold slotClause
    rw [remove_session_slotAt st sid tid hrt k]
    by_cases hkP : clearedPos st sid tid k
    · rw [if_pos hkP]
      exact ⟨le_refl (-1), fun _ => rfl, fun s hs => absurd hs (by simp)⟩
    · rw [if_neg hkP]
      obtain ⟨hv, hnone, hsome⟩ :=
        hslots k hk (by rw [goodK_full]; omega)
      refine ⟨hv, hnone, ?_⟩
      intro s hs
      have hsns : s ≠ sid ∧ s ≠ tid := by
        constructor <;>
          · rintro rfl
            exact hkP (hrefP k hk (by omega) (by tauto))
      obtain ⟨hdst, ⟨j, hj1, hj2, hj3, -⟩, hfwd⟩ := hsome s hs
      have hsmap := remove_session_smap st sid
      refine ⟨?_, ⟨j, ?_, ?_, ?_, by simp⟩, ?_⟩
      · unfold fdsDistinct at hdst ⊢
        rw [hsmap]
        exact hdst
      · rw [hsmap]
        exact hj1
      · rw [hsmap, hj2]
      · rw [hsmap]
        exact hj3
      · intro j2 hj2f
        rw [hsmap] at hj2f
        rcases hfwd j2 hj2f with hex | hleg
        · exact absurd hex (by simp)
        · refine Or.inr ?_
          obtain ⟨hl1, hl2, hl3, hl4⟩ := hleg
          rw [goodK_full] at hl2
          have hmnot : ¬ clearedPos st sid tid (legSlot st s j2) := by
            intro hc
            rcases (hPsess _ hc).1 with hcs | hcs
            · rw [hl4] at hcs
              exact hsns.1 (Option.some_inj.mp hcs)
            · rw [hl4] at hcs
              exact hsns.2 (Option.some_inj.mp hcs)
          refine ⟨by rw [hsmap]; exact hl1, ?_, ?_, ?_⟩
          · rw [goodK_full, legSlot_remove, remove_session_slots_length]
            exact hl2
          · rw [legSlot_remove,
              remove_session_slotAt st sid tid hrt, if_neg hmnot, hsmap]
            exact hl3
          · rw [legSlot_remove,
              remove_session_slotAt st sid tid hrt, if_neg hmnot]
            exact hl4

lemma slotAt_lt (st : PState) (k : Nat) (h : k < st.slots.length) :
    slotAt st k = st.slots.get ⟨k, h⟩ := by
  unfold slotAt
  rw [List.getD_eq_getElem _ _ h]
  simp

/-- Passing a cleared slot: the garbage window of the compaction grows by
one on the right. -/
lemma pollWFgen_skip (st : PState) (r s : Nat) (hs : s < r)
    (hlt : r < st.slots.length)
    (hfd : (slotAt st r).fd = -1)
    (hwf : pollWFgen st (r - s) r none) :
    pollWFgen st (r - s) (r + 1) none := by
  obtain ⟨ha1, hab, hble, h0s, h0f, hcl⟩ := hwf
  refine ⟨ha1, by omega, by omega, h0s, h0f, ?_⟩
  intro k hk hg
  have hck := hcl k hk (by unfold goodK at hg ⊢; omega)
  obtain ⟨hv, hnone, hsome⟩ := hck
  refine ⟨hv, hnone, ?_⟩
  intro s2 hs2
  obtain ⟨hd, hb, hf⟩ := hsome s2 hs2
  refine ⟨hd, ?_, ?_⟩
  · obtain ⟨j, h1, h2, h3, -⟩ := hb
    exact ⟨j, h1, h2, h3, by simp⟩
  · intro j hj
    rcases hf j hj with hx | hleg
    · exact absurd hx (by simp)
    · refine Or.inr ?_
      obtain ⟨l1, l2, l3, l4⟩ := hleg
      have hmner : legSlot st s2 j ≠ r := by
        intro hc
        rw [hc, hfd] at l3
        exact hj l3.symm
      refine ⟨l1, ?_, l3, l4⟩
      unfold goodK at l2 ⊢
      omega

/-- Passing a live slot when nothing has been skipped yet: the window is
empty and merely slides right. -/
lemma pollWFgen_shift (st : PState) (r : Nat)
    (hlt : r < st.slots.length)
    (hwf : pollWFgen st r r none) :
    pollWFgen st (r + 1) (r + 1) none := by
  obtain ⟨ha1, hab, hble, h0s, h0f, hcl⟩ := hwf
  refine ⟨by omega, le_refl _, by omega, h0s, h0f, ?_⟩
  intro k hk hg
  have hck := hcl k hk (by unfold goodK at hg ⊢; omega)
  obtain ⟨hv, hnone, hsome⟩ := hck
  refine ⟨hv, hnone, ?_⟩
  intro s2 hs2
  obtain ⟨hd, hb, hf⟩ := hsome s2 hs2
  refine ⟨hd, ?_, ?_⟩
  · obtain ⟨j, h1, h2, h3, -⟩ := hb
    exact ⟨j, h1, h2, h3, by simp⟩
  · intro j hj
    rcases hf j hj with hx | hleg
    · exact absurd hx (by simp)
    · obtain ⟨l1, l2, l3, l4⟩ := hleg
      exact Or.inr ⟨l1, by unfold goodK at l2 ⊢; omega, l3, l4⟩

lemma fin2_cases (j : Fin 2) : j = 0 ∨ j = 1 := by
  revert j
  decide

lemma fin2_cases_ne (j r : Fin 2) (h : j ≠ r) :
    (j = 0 ∧ r = 1) ∨ (j = 1 ∧ r = 0) := by
  revert j r
  decide

/-- Moving a live slot left onto the garbage window and rewiring the
owning leg's stored index preserves the windowed invariant. -/
lemma pollWFgen_move (st : PState) (r s : Nat) (slot : PSlot) (sid : Nat)
    (ridx : Fin 2)
    (hs0 : 0 < s) (hs : s < r) (hlt : r < st.slots.length)
    (hslot : slotAt st r = slot)
    (hfd : slot.fd ≠ -1)
    (hsid : slot.sess = some sid)
    (hridx : ridx = if slot.fd = (st.smap sid).fds 0 then 0 else 1)
    (hwf : pollWFgen st (r - s) r none) :
    pollWFgen
      { slots := st.slots.set (r - s) slot,
        smap := Function.update st.smap sid
          ({ st.smap sid with
             sidx := Function.update (st.smap sid).sidx ridx
               ((r - s : Nat) : Int) }) }
      (r - s + 1) (r + 1) none := by
  obtain ⟨ha1, hab, hble, h0s, h0f, hcl⟩ := hwf
  set a := r - s with hadef
  have hcr := hcl r hlt (by unfold goodK; omega)
  obtain ⟨hvr, hnoner, hsomer⟩ := hcr
  obtain ⟨hdr, ⟨j0, hb1, hb2, hb3, -⟩, hfr⟩ :=
    hsomer sid (by rw [hslot]; exact hsid)
  rw [hslot] at hvr hb2
  -- the leg the loop picks is the owner of this slot
  have hridx_eq : ridx = j0 := by
    rcases Fin.exists_fin_two.mp ⟨j0, rfl⟩ with hj0 | hj0
    · rw [hridx, if_pos (by rw [← hj0, hb2]), hj0]
    · rw [hridx]
      rw [if_neg (by
        intro hc
        unfold fdsDistinct at hdr
        exact hdr ⟨by rw [← hc]; exact hfd, by rw [← hc, ← hj0, hb2]⟩), hj0]
  subst hridx_eq
  set sp2 : PSession :=
    { st.smap sid with
      sidx := Function.update (st.smap sid).sidx ridx ((a : Nat) : Int) }
    with hsp2def
  set st2 : PState :=
    { slots := st.slots.set a slot,
      smap := Function.update st.smap sid sp2 } with hst2def
  have hlen2 : st2.slots.length = st.slots.length := by
    rw [hst2def]
    simp
  have hanr : a < r := by omega
  have hsl_a : slotAt st2 a = slot := by
    unfold slotAt
    rw [hst2def]
    dsimp only
    simp only [List.getD_eq_getElem?_getD, List.getElem?_set, if_true]
    rw [if_pos (show a < st.slots.length by omega)]
    rfl
  have hsl_ne : ∀ k, k ≠ a → slotAt st2 k = slotAt st k := by
    intro k hk
    unfold slotAt
    rw [hst2def]
    dsimp only
    simp only [List.getD_eq_getElem?_getD, List.getElem?_set]
    rw [if_neg (fun hc => hk hc.symm)]
  have hsm_sid : st2.smap sid = sp2 := by
    rw [hst2def]
    exact Function.update_same _ _ _
  have hsm_ne : ∀ s2, s2 ≠ sid → st2.smap s2 = st.smap s2 := by
    intro s2 hs2
    rw [hst2def]
    exact Function.update_noteq hs2 _ _
  have hfds_all : ∀ s2, (st2.smap s2).fds = (st.smap s2).fds := by
    intro s2
    by_cases hc : s2 = sid
    · rw [hc, hsm_sid, hsp2def]
    · rw [hsm_ne s2 hc]
  have hsidx_ridx : (st2.smap sid).sidx ridx = ((a : Nat) : Int) := by
    rw [hsm_sid, hsp2def]
    exact Function.update_same _ _ _
  have hsidx_ne : ∀ s2 (j : Fin 2), (s2 = sid → j ≠ ridx) →
      (st2.smap s2).sidx j = (st.smap s2).sidx j := by
    intro s2 j hj
    by_cases hc : s2 = sid
    · rw [hc, hsm_sid, hsp2def]
      exact Function.update_noteq (hj hc) _ _
    · rw [hsm_ne s2 hc]
  -- the rewired leg is correctly slotted at position a
  have hnewleg : legFwd st2 (a + 1) (r + 1) sid ridx := by
    have hls : legSlot st2 sid ridx = a := by
      unfold legSlot
      rw [hsidx_ridx]
      simp
    refine ⟨by rw [hsidx_ridx]; exact Int.ofNat_nonneg a, ?_, ?_, ?_⟩
    · rw [hls]
      unfold goodK
      omega
    · rw [hls, hsl_a, hfds_all, hb2]
    · rw [hls, hsl_a, hsid]
  -- transporting an untouched leg
  have hT : ∀ s2 (j : Fin 2), (s2 = sid → j ≠ ridx) →
      (st.smap s2).fds j ≠ -1 → legFwd st a r s2 j →
      legFwd st2 (a + 1) (r + 1) s2 j := by
    intro s2 j hnot hfdj hleg
    obtain ⟨l1, l2, l3, l4⟩ := hleg
    have hls : legSlot st2 s2 j = legSlot st s2 j := by
      unfold legSlot
      rw [hsidx_ne s2 j hnot]
    have hmne_r : legSlot st s2 j ≠ r := by
      intro hc
      rw [hc] at l3 l4
      rw [hslot] at l3 l4
      rw [hsid] at l4
      have hs2sid : s2 = sid := (Option.some_inj.mp l4).symm
      have hj : j ≠ ridx := hnot hs2sid
      rw [hs2sid] at l3 hfdj
      have heq : (st.smap sid).fds j = (st.smap sid).fds ridx := by
        rw [← l3, hb2]
      unfold fdsDistinct at hdr
      rcases fin2_cases_ne j ridx hj with ⟨hj0, hr1⟩ | ⟨hj1, hr0⟩
      · rw [hj0] at hfdj
        rw [hj0, hr1] at heq
        exact hdr ⟨hfdj, heq⟩
      · rw [hr0] at hb3
        rw [hj1, hr0] at heq
        exact hdr ⟨hb3, heq.symm⟩
    have hmne_a : legSlot st s2 j ≠ a := by
      unfold goodK at l2
      omega
    refine ⟨by rw [hsidx_ne s2 j hnot]; exact l1, ?_, ?_, ?_⟩
    · rw [hls]
      unfold goodK at l2 ⊢
      rw [hlen2]
      omega
    · rw [hls, hsl_ne _ hmne_a, l3, hfds_all]
    · rw [hls, hsl_ne _ hmne_a, l4]
  refine ⟨by omega, by omega, by rw [hlen2]; omega, ?_, ?_, ?_⟩
  · rw [hsl_ne 0 (by omega)]
    exact h0s
  · rw [hsl_ne 0 (by omega)]
    exact h0f
  · intro k hk hg
    rw [hlen2] at hk hg
    unfold slotClause
    by_cases hka : k = a
    · subst hka
      rw [hsl_a]
      refine ⟨hvr, fun hc => absurd hsid (by rw [hc]; simp), ?_⟩
      intro s2 hs2
      have hs2sid : s2 = sid := by
        rw [hsid] at hs2
        exact (Option.some_inj.mp hs2).symm
      subst hs2sid
      refine ⟨?_, ⟨ridx, hsidx_ridx, ?_, ?_, by simp⟩, ?_⟩
      · unfold fdsDistinct at hdr ⊢
        rw [hfds_all]
        exact hdr
      · rw [hfds_all, hb2]
      · rw [hfds_all]
        exact hb3
      · intro j hj
        rw [hfds_all] at hj
        by_cases hjr : j = ridx
        · subst hjr
          exact Or.inr hnewleg
        · rcases hfr j hj with hx | hleg
          · exact absurd hx (by simp)
          · exact Or.inr (hT s2 j (fun _ => hjr) hj hleg)
    · have hgood_old : goodK a r st.slots.length k := by
        unfold goodK at hg ⊢
        omega
      have hck := hcl k hk hgood_old
      obtain ⟨hv, hnone, hsome⟩ := hck
      rw [hsl_ne k hka]
      refine ⟨hv, hnone, ?_⟩
      intro s2 hs2
      obtain ⟨hd, ⟨j, hj1, hj2, hj3, -⟩, hf⟩ := hsome s2 hs2
      have hback_ne : s2 = sid → j ≠ ridx := by
        intro hcs hcj
        rw [hcs, hcj] at hj1
        rw [hj1] at hb1
        have : k = r := by
          have := Int.ofNat_inj.mp hb1
          omega
        unfold goodK at hg
        omega
      refine ⟨?_, ⟨j, ?_, ?_, ?_, by simp⟩, ?_⟩
      · unfold fdsDistinct at hd ⊢
        rw [hfds_all]
        exact hd
      · rw [hsidx_ne s2 j hback_ne]
        exact hj1
      · rw [hfds_all, hj2]
      · rw [hfds_all]
        exact hj3
      · intro j2 hj2f
        rw [hfds_all] at hj2f
        by_cases hcase : s2 = sid ∧ j2 = ridx
        · rw [hcase.1, hcase.2]
          exact Or.inr hnewleg
        · rcases hf j2 hj2f with hx | hleg
          · exact absurd hx (by simp)
          · exact Or.inr (hT s2 j2 (fun hcs hcj => hcase ⟨hcs, hcj⟩)
              hj2f hleg)

/-- Truncating the trailing garbage window at the end of the pass yields
the quiescent invariant. -/
lemma pollWFgen_final (st : PState) (s : Nat)
    (hs : s < st.slots.length)
    (hwf : pollWFgen st (st.slots.length - s) st.slots.length none) :
    pollWF { st with slots := st.slots.take (st.slots.length - s) } := by
  obtain ⟨ha1, hab, hble, h0s, h0f, hcl⟩ := hwf
  set n := st.slots.length with hn
  set a := n - s with hadef
  set st2 : PState := { st with slots := st.slots.take a } with hst2def
  have hlen2 : st2.slots.length = a := by
    rw [hst2def]
    simp only [List.length_take]
    omega
  have hsl : ∀ k, k < a → slotAt st2 k = slotAt st k := by
    intro k hk
    unfold slotAt
    rw [hst2def]
    dsimp only
    simp [List.getD_eq_getElem?_getD, List.getElem?_take, hk]
  have hsm : st2.smap = st.smap := by rw [hst2def]
  refine ⟨le_refl 1, le_refl 1, by omega, ?_, ?_, ?_⟩
  · rw [hsl 0 (by omega)]
    exact h0s
  · rw [hsl 0 (by omega)]
    exact h0f
  · intro k hk hg
    rw [hlen2] at hk hg
    rw [goodK_full] at hg
    have hck := hcl k (by omega) (by unfold goodK; omega)
    obtain ⟨hv, hnone, hsome⟩ := hck
    unfold slotClause
    rw [hsl k (by omega)]
    refine ⟨hv, hnone, ?_⟩
    intro s2 hs2
    obtain ⟨hd, ⟨j, hj1, hj2, hj3, -⟩, hf⟩ := hsome s2 hs2
    refine ⟨?_, ⟨j, ?_, ?_, ?_, by simp⟩, ?_⟩
    · unfold fdsDistinct at hd ⊢
      rw [hsm]
      exact hd
    · rw [hsm]
      exact hj1
    · rw [hsm, hj2]
    · rw [hsm]
      exact hj3
    · intro j2 hj2f
      rw [hsm] at hj2f
      rcases hf j2 hj2f with hx | hleg
      · exact absurd hx (by simp)
      · obtain ⟨l1, l2, l3, l4⟩ := hleg
        have hma : legSlot st s2 j2 < a := by
          unfold goodK at l2
          omega
        have hls : legSlot st2 s2 j2 = legSlot st s2 j2 := by
          unfold legSlot
          rw [hsm]
        refine Or.inr ⟨?_, ?_, ?_, ?_⟩
        · rw [hsm]
          exact l1
        · rw [goodK_full, hlen2, hls]
          unfold goodK at l2
          omega
        · rw [hls, hsl _ hma, hsm]
          exact l3
        · rw [hls, hsl _ hma]
          exact l4

/-- The compaction loop carries the windowed invariant to the quiescent
one. -/
lemma compactLoop_wf (fuel : Nat) :
    ∀ (st : PState) (r s : Nat),
    st.slots.length - r ≤ fuel → s < r →
    pollWFgen st (r - s) r none →
    pollWF (compactLoop st r s) := by
  induction fuel with
  | zero =>
    intro st r s hfuel hs hwf
    have hble : r ≤ st.slots.length := hwf.2.2.1
    have hr : r = st.slots.length := by omega
    unfold compactLoop
    rw [dif_neg (by omega)]
    rw [hr] at hwf
    exact pollWFgen_final st s (by omega) hwf
  | succ fuel ih =>
    intro st r s hfuel hs hwf
    have hble : r ≤ st.slots.length := hwf.2.2.1
    unfold compactLoop
    by_cases hlt : r < st.slots.length
    · rw [dif_pos hlt]
      dsimp only
      by_cases hfdc : (st.slots.get ⟨r, hlt⟩).fd = -1
      · rw [if_pos hfdc]
        refine ih st (r + 1) (s + 1) (by omega) (by omega) ?_
        rw [Nat.succ_sub_succ]
        exact pollWFgen_skip st r s hs hlt
          (by rw [slotAt_lt st r hlt]; exact hfdc) hwf
      · rw [if_neg hfdc]
        by_cases hs0 : 0 < s
        · rw [if_pos hs0]
          have hslot : slotAt st r = st.slots.get ⟨r, hlt⟩ :=
            slotAt_lt st r hlt
          have hsess : (st.slots.get ⟨r, hlt⟩).sess =
              some ((st.slots.get ⟨r, hlt⟩).sess.getD 0) := by
            have hck := hwf.2.2.2.2.2 r hlt (by unfold goodK; omega)
            have hnone := hck.2.1
            cases hcs : (st.slots.get ⟨r, hlt⟩).sess with
            | none =>
              have h1 : (slotAt st r).sess = none := by
                rw [hslot]
                exact hcs
              have h2 := hnone h1
              rw [hslot] at h2
              exact absurd h2 hfdc
            | some v => simp
          refine ih _ (r + 1) s (by simp; omega) (by omega) ?_
          have hmv := pollWFgen_move st r s (st.slots.get ⟨r, hlt⟩)
            ((st.slots.get ⟨r, hlt⟩).sess.getD 0) _ hs0 hs hlt hslot
            hfdc hsess rfl hwf
          have harith : r + 1 - s = r - s + 1 := by omega
          rw [harith]
          exact hmv
        · rw [if_neg hs0]
          have hseq : s = 0 := by omega
          subst hseq
          refine ih st (r + 1) 0 (by omega) (by omega) ?_
          rw [Nat.sub_zero] at hwf ⊢
          exact pollWFgen_shift st r hlt hwf
    · rw [dif_neg hlt]
      have hr : r = st.slots.length := by omega
      rw [hr] at hwf
      exact pollWFgen_final st s (by omega) hwf

/-- A forwarder compaction pass preserves the poll-set invariant. -/
lemma process_rtp_pass_wf (st : PState) (hwf : pollWF st) :
    pollWF (process_rtp_pass st) := by
  unfold process_rtp_pass
  exact compactLoop_wf st.slots.length st 1 0 (by omega) (by omega) hwf

/-- C1: for every live session `s` and side `i` with a live descriptor,
the poll-set entry at `s.sidx[i]` holds exactly `fds[i]` and the parallel
sessions array there points back at `s` (`pollInv`); this invariant —
strengthened to the full table well-formedness `pollWF` that implies it —
is preserved by `append_session` (under its call-site preconditions: the
appended leg is not yet slotted, its descriptor is valid, and the other
leg is slotted or dead), by `remove_session` (which clears fd, events and
session pointer of each owned slot in the same step), and by the in-place
compaction of both arrays in the forwarder pass. -/
theorem claim_C1 (st : PState) (sid tid : Nat) (i : Fin 2) :
    (pollWF st → pollInv st) ∧
    (pollWFgen st 1 1 (some (sid, i)) →
      ((st.smap sid).fds i = -1 ∨ 0 ≤ (st.smap sid).fds i) →
      fdsDistinct st sid →
      (∀ j : Fin 2, j ≠ i → (st.smap sid).fds j ≠ -1 → legFwd st 1 1 sid j) →
      pollWF (append_session st sid i)) ∧
    (pollWF st → (st.smap sid).rtcp = some tid →
      (∃ k, k < st.slots.length ∧ (slotAt st k).sess = some sid) →
      ((∃ k, k < st.slots.length ∧ (slotAt st k).sess = some tid) ∨
        (∀ j : Fin 2, (st.smap tid).fds j = -1)) →
      pollWF (remove_session st sid)) ∧
    (pollWF st → pollWF (process_rtp_pass st)) :=
  ⟨pollWF_implies_pollInv st,
   append_session_wf st sid i,
   remove_session_wf st sid tid,
   process_rtp_pass_wf st⟩

/-- Concrete poll state: control slot plus one RTP/RTCP pair, each with
side 0 bound. -/
def pstA : PState :=
  { slots := [⟨3, true, none⟩, ⟨5, true, some 1⟩, ⟨6, true, some 2⟩],
    smap := fun n =>
      if n = 1 then
        ⟨fun j => if j = 0 then 5 else -1, fun j => if j = 0 then 1 else -1,
         60, some 2⟩
      else if n = 2 then
        ⟨fun j => if j = 0 then 6 else -1, fun j => if j = 0 then 2 else -1,
         -1, none⟩
      else ⟨fun _ => -1, fun _ => -1, 0, none⟩ }

/-- Like `pstA` with an extra not-yet-appended session 3 whose side 0
holds a fresh descriptor. -/
def pstB : PState :=
  { pstA with
    smap := fun n =>
      if n = 3 then ⟨fun j => if j = 0 then 7 else -1, fun _ => -1, 60, some 4⟩
      else pstA.smap n }

/-- Witness for C1 on the concrete states. -/
theorem claim_C1_witness :
    pollInv pstA ∧
    pollWF (append_session pstB 3 0) ∧
    pollWF (remove_session pstA 1) ∧
    pollWF (process_rtp_pass pstA) :=
  ⟨(claim_C1 pstA 1 2 0).1 (by decide),
   (claim_C1 pstB 3 0 0).2.1 (by decide) (by decide) (by decide) (by decide),
   (claim_C1 pstA 1 2 0).2.2.1 (by decide) (by decide) ⟨1, by decide⟩
     (Or.inl ⟨2, by decide⟩),
   (claim_C1 pstA 1 2 0).2.2.2 (by decide)⟩

/-- A session is live while some slot of the table points at it. -/
def referenced (st : PState) (sid : Nat) : Prop :=
  ∃ k, k < st.slots.length ∧ (slotAt st k).sess = some sid

instance (st : PState) (sid : Nat) : Decidable (referenced st sid) := by
  unfold referenced
  infer_instance

/-- Twin-structure invariant of the session table: every live RTP session
(`rtcp` set) points at an RTCP record with side 0 bound for itself, a
live-or-socketless twin, and is the only live owner of that twin; every
live RTCP session (`rtcp == NULL`) carries the `-1` ttl sentinel from its
creation. -/
def rtpTwinOK (st : PState) (sid tid : Nat) : Prop :=
  (st.smap tid).rtcp = none ∧
  (st.smap sid).fds 0 ≠ -1 ∧
  ((∃ m, m < st.slots.length ∧ (slotAt st m).sess = some tid) ∨
    (∀ j : Fin 2, (st.smap tid).fds j = -1)) ∧
  (∀ m, m < st.slots.length → ∀ p2, (slotAt st m).sess = some p2 →
    (st.smap p2).rtcp = some tid → p2 = sid)

instance (st : PState) (sid tid : Nat) : Decidable (rtpTwinOK st sid tid) := by
  unfold rtpTwinOK
  infer_instance

def twinClause (st : PState) (sid : Nat) : Prop :=
  (∀ tid, (st.smap sid).rtcp = some tid → rtpTwinOK st sid tid) ∧
  ((st.smap sid).rtcp = none → (st.smap sid).ttl = -1)

instance (st : PState) (sid : Nat) : Decidable (twinClause st sid) := by
  unfold twinClause
  infer_instance

def twinWF (st : PState) : Prop :=
  ∀ k, k < st.slots.length → ∀ sid, (slotAt st k).sess = some sid →
    twinClause st sid

instance (st : PState) : Decidable (twinWF st) := by
  unfold twinWF
  infer_instance

/-- Removal never makes a dead session live again. -/
lemma remove_session_not_add (st : PState) (sid s : Nat)
    (tid : Nat) (hrt : (st.smap sid).rtcp = some tid)
    (h : ¬ referenced st s) : ¬ referenced (remove_session st sid) s := by
  intro ⟨k, hk, hsess⟩
  rw [remove_session_slots_length] at hk
  rw [remove_session_slotAt st sid tid hrt] at hsess
  split at hsess
  · exact absurd hsess (by simp)
  · exact h ⟨k, hk, hsess⟩

/-- Removal clears exactly the pair's own slots, so every other session
keeps its liveness. -/
lemma remove_session_ref_iff (st : PState) (sid tid s : Nat)
    (hwf : pollWF st) (hrt : (st.smap sid).rtcp = some tid)
    (hs1 : s ≠ sid) (hs2 : s ≠ tid)
    (hsf : ∀ j : Fin 2, (st.smap sid).fds j ≠ -1 → legFwd st 1 1 sid j)
    (htf : ∀ j : Fin 2, (st.smap tid).fds j ≠ -1 → legFwd st 1 1 tid j) :
    referenced (remove_session st sid) s ↔ referenced st s := by
  constructor
  · intro ⟨k, hk, hsess⟩
    rw [remove_session_slots_length] at hk
    rw [remove_session_slotAt st sid tid hrt] at hsess
    split at hsess
    · exact absurd hsess (by simp)
    · exact ⟨k, hk, hsess⟩
  · intro ⟨k, hk, hsess⟩
    refine ⟨k, by rw [remove_session_slots_length]; exact hk, ?_⟩
    rw [remove_session_slotAt st sid tid hrt]
    rw [if_neg ?_]
    · exact hsess
    · intro hc
      obtain ⟨-, hdis⟩ := hc
      rcases hdis with ⟨hf, hkeq⟩ | ⟨hf, hkeq⟩ | ⟨hf, hkeq⟩ | ⟨hf, hkeq⟩
      · obtain ⟨-, -, -, hse⟩ := hsf 0 hf
        rw [← hkeq] at hse
        rw [hse] at hsess
        exact hs1 (Option.some_inj.mp hsess).symm
      · obtain ⟨-, -, -, hse⟩ := hsf 1 hf
        rw [← hkeq] at hse
        rw [hse] at hsess
        exact hs1 (Option.some_inj.mp hsess).symm
      · obtain ⟨-, -, -, hse⟩ := htf 0 hf
        rw [← hkeq] at hse
        rw [hse] at hsess
        exact hs2 (Option.some_inj.mp hsess).symm
      · obtain ⟨-, -, -, hse⟩ := htf 1 hf
        rw [← hkeq] at hse
        rw [hse] at hsess
        exact hs2 (Option.some_inj.mp hsess).symm

/-- After `remove_session` neither the session nor its twin is live. -/
lemma remove_session_unref (st : PState) (sid tid : Nat)
    (hwf : pollWF st) (hrt : (st.smap sid).rtcp = some tid) :
    ¬ referenced (remove_session st sid) sid ∧
    ¬ referenced (remove_session st sid) tid := by
  have hgen : ∀ s, (s = sid ∨ s = tid) →
      ¬ referenced (remove_session st sid) s := by
    intro s hcases ⟨k, hk, hsess⟩
    rw [remove_session_slots_length] at hk
    rw [remove_session_slotAt st sid tid hrt] at hsess
    split at hsess
    · exact absurd hsess (by simp)
    · rename_i hknot
      have hk1 : 1 ≤ k := by
        rcases Nat.eq_zero_or_pos k with rfl | hpos
        · rw [hwf.2.2.2.1] at hsess
          exact absurd hsess (by simp)
        · omega
      obtain ⟨j, hj1, hj2⟩ := refs_are_legs st hwf k hk hk1 s hsess
      apply hknot
      refine ⟨hk, ?_⟩
      rcases hcases with rfl | rfl
      · rcases fin2_cases j with hj | hj
        · exact Or.inl ⟨by rw [← hj]; exact hj1, by rw [← hj]; exact hj2⟩
        · exact Or.inr (Or.inl ⟨by rw [← hj]; exact hj1, by rw [← hj]; exact hj2⟩)
      · rcases fin2_cases j with hj | hj
        · exact Or.inr (Or.inr (Or.inl ⟨by rw [← hj]; exact hj1,
            by rw [← hj]; exact hj2⟩))
        · exact Or.inr (Or.inr (Or.inr ⟨by rw [← hj]; exact hj1,
            by rw [← hj]; exact hj2⟩))
  exact ⟨hgen sid (Or.inl rfl), hgen tid (Or.inr rfl)⟩

/-- The poll-set invariant only looks at slots, descriptors and stored
indices, so any state agreeing on those satisfies it too. -/
lemma pollWF_ext (st st2 : PState) (hslots : st2.slots = st.slots)
    (hmap : ∀ s, (st2.smap s).fds = (st.smap s).fds ∧
      (st2.smap s).sidx = (st.smap s).sidx)
    (h : pollWF st) : pollWF st2 := by
  obtain ⟨-, -, hble, h0s, h0f, hcl⟩ := h
  have hsl : ∀ k, slotAt st2 k = slotAt st k := by
    intro k
    unfold slotAt
    rw [hslots]
  have hlen : st2.slots.length = st.slots.length := by rw [hslots]
  refine ⟨le_refl 1, le_refl 1, by omega, by rw [hsl]; exact h0s,
    by rw [hsl]; exact h0f, ?_⟩
  intro k hk hg
  rw [hlen] at hk hg
  obtain ⟨hv, hnone, hsome⟩ := hcl k hk (by unfold goodK at hg ⊢; omega)
  unfold slotClause
  rw [hsl]
  refine ⟨hv, hnone, ?_⟩
  intro s hs
  obtain ⟨hd, ⟨j, hj1, hj2, hj3, -⟩, hf⟩ := hsome s hs
  refine ⟨?_, ⟨j, ?_, ?_, ?_, by simp⟩, ?_⟩
  · unfold fdsDistinct at hd ⊢
    rw [(hmap s).1]
    exact hd
  · rw [(hmap s).2]
    exact hj1
  · rw [(hmap s).1, hj2]
  · rw [(hmap s).1]
    exact hj3
  · intro j2 hj2f
    rw [(hmap s).1] at hj2f
    rcases hf j2 hj2f with hx | hleg
    · exact absurd hx (by simp)
    · obtain ⟨l1, l2, l3, l4⟩ := hleg
      have hls : legSlot st2 s j2 = legSlot st s j2 := by
        unfold legSlot
        rw [(hmap s).2]
      refine Or.inr ⟨by rw [(hmap s).2]; exact l1, ?_, ?_, ?_⟩
      · rw [hls]
        unfold goodK at l2 ⊢
        rw [hlen]
        exact l2
      · rw [hls, hsl, l3, (hmap s).1]
      · rw [hls, hsl, l4]

/-- Refreshing the ttl of a live RTP session keeps the twin structure. -/
lemma twinWF_ttl_update (st : PState) (sid0 : Nat) (sp2 : PSession)
    (hrt : (st.smap sid0).rtcp ≠ none)
    (hf2 : sp2.fds = (st.smap sid0).fds)
    (hr2 : sp2.rtcp = (st.smap sid0).rtcp)
    (htw : twinWF st) :
    twinWF { st with smap := Function.update st.smap sid0 sp2 } := by
  set st2 : PState := { st with smap := Function.update st.smap sid0 sp2 }
    with hst2
  have hsl : ∀ k, slotAt st2 k = slotAt st k := by
    intro k
    unfold slotAt
    rw [hst2]
  have hrtcp : ∀ s, (st2.smap s).rtcp = (st.smap s).rtcp := by
    intro s
    rw [hst2]
    dsimp only
    rw [Function.update_apply]
    split
    · rename_i hcs
      rw [hcs]
      exact hr2
    · rfl
  have hfds : ∀ s, (st2.smap s).fds = (st.smap s).fds := by
    intro s
    rw [hst2]
    dsimp only
    rw [Function.update_apply]
    split
    · rename_i hcs
      rw [hcs]
      exact hf2
    · rfl
  have httl : ∀ s, s ≠ sid0 → (st2.smap s).ttl = (st.smap s).ttl := by
    intro s hsne
    rw [hst2]
    dsimp only
    rw [Function.update_noteq hsne]
  intro k hk sid hsess
  rw [show st2.slots.length = st.slots.length from by rw [hst2]] at hk
  rw [hsl] at hsess
  obtain ⟨hpair, hsent⟩ := htw k hk sid hsess
  constructor
  · intro tid hrt2
    rw [hrtcp] at hrt2
    obtain ⟨t1, t2, t3, t4⟩ := hpair tid hrt2
    refine ⟨by rw [hrtcp]; exact t1, by rw [hfds]; exact t2, ?_, ?_⟩
    · rcases t3 with ⟨m, hm, hms⟩ | hdead
      · exact Or.inl ⟨m, by rw [hst2]; exact hm, by rw [hsl]; exact hms⟩
      · exact Or.inr (by intro j; rw [hfds]; exact hdead j)
    · intro m hm p2 hp2 hpr
      rw [show st2.slots.length = st.slots.length from by rw [hst2]] at hm
      rw [hsl] at hp2
      rw [hrtcp] at hpr
      exact t4 m hm p2 hp2 hpr
  · intro hnone2
    rw [hrtcp] at hnone2
    have hsne : sid ≠ sid0 := by
      intro heq
      rw [heq] at hnone2
      exact hrt hnone2
    rw [httl sid hsne]
    exact hsent hnone2

/-- Removing a session pair keeps the twin structure of the remaining
table. -/
lemma twinWF_remove (st : PState) (sid0 tid0 : Nat)
    (hwf : pollWF st) (htw : twinWF st)
    (hrt : (st.smap sid0).rtcp = some tid0)
    (href : referenced st sid0) :
    twinWF (remove_session st sid0) := by
  obtain ⟨k0, hk0, hse0⟩ := href
  have huniq0 := ((htw k0 hk0 sid0 hse0).1 tid0 hrt).2.2.2
  have hunref := remove_session_unref st sid0 tid0 hwf hrt
  have hsmap := remove_session_smap st sid0
  intro k hk sid hsess
  rw [remove_session_slots_length] at hk
  have hsess2 := hsess
  rw [remove_session_slotAt st sid0 tid0 hrt] at hsess2
  split at hsess2
  · exact absurd hsess2 (by simp)
  · have hrefsid : referenced (remove_session st sid0) sid :=
      ⟨k, by rw [remove_session_slots_length]; exact hk, hsess⟩
    have hsid_ne : sid ≠ sid0 := by
      rintro rfl
      exact hunref.1 hrefsid
    have hsid_nt : sid ≠ tid0 := by
      rintro rfl
      exact hunref.2 hrefsid
    obtain ⟨hpair, hsent⟩ := htw k hk sid hsess2
    constructor
    · intro tid hrt2
      rw [hsmap] at hrt2
      obtain ⟨t1, t2, t3, t4⟩ := hpair tid hrt2
      have htid_ns : tid ≠ sid0 := by
        intro heq
        rw [heq, hrt] at t1
        exact absurd t1 (by simp)
      have htid_nt : tid ≠ tid0 := by
        intro heq
        rw [heq] at hrt2
        exact hsid_ne (huniq0 k hk sid hsess2 hrt2)
      refine ⟨by rw [hsmap]; exact t1, by rw [hsmap]; exact t2, ?_, ?_⟩
      · rcases t3 with hreft | hdead
        · refine Or.inl ?_
          have hsf := refs_fwd st hwf sid0 ⟨k0, hk0, hse0⟩
          have htf : ∀ j : Fin 2, (st.smap tid0).fds j ≠ -1 →
              legFwd st 1 1 tid0 j := by
            rcases ((htw k0 hk0 sid0 hse0).1 tid0 hrt).2.2.1 with hrt0 | hdead0
            · exact refs_fwd st hwf tid0 hrt0
            · intro j hj
              exact absurd (hdead0 j) hj
          exact (remove_session_ref_iff st sid0 tid0 tid hwf hrt htid_ns
            htid_nt hsf htf).mpr hreft
        · refine Or.inr ?_
          intro j
          rw [hsmap]
          exact hdead j
      · intro m hm p2 hp2 hpr
        rw [remove_session_slots_length] at hm
        rw [remove_session_slotAt st sid0 tid0 hrt] at hp2
        split at hp2
        · exact absurd hp2 (by simp)
        · rw [hsmap] at hpr
          exact t4 m hm p2 hp2 hpr
    · intro hnone2
      rw [hsmap] at hnone2 ⊢
      exact hsent hnone2

lemma alarmLoop_stop (st : PState) (i : Nat) (h : ¬ i < st.slots.length) :
    alarmLoop st i = st := by
  unfold alarmLoop
  rw [dif_neg h]

lemma alarmLoop_none (st : PState) (i : Nat) (h : i < st.slots.length)
    (hsess : (st.slots.get ⟨i, h⟩).sess = none) :
    alarmLoop st i = alarmLoop st (i + 1) := by
  conv_lhs => unfold alarmLoop
  rw [dif_pos h]
  dsimp only
  rw [hsess]

lemma alarmLoop_skip2 (st : PState) (i : Nat) (h : i < st.slots.length)
    (sid : Nat) (hsess : (st.slots.get ⟨i, h⟩).sess = some sid)
    (hskip : (st.smap sid).rtcp = none ∨ (st.smap sid).sidx 0 ≠ (i : Int)) :
    alarmLoop st i = alarmLoop st (i + 1) := by
  conv_lhs => unfold alarmLoop
  rw [dif_pos h]
  dsimp only
  rw [hsess]
  dsimp only
  rw [if_pos hskip]

lemma alarmLoop_rm (st : PState) (i : Nat) (h : i < st.slots.length)
    (sid : Nat) (hsess : (st.slots.get ⟨i, h⟩).sess = some sid)
    (hns : ¬((st.smap sid).rtcp = none ∨ (st.smap sid).sidx 0 ≠ (i : Int)))
    (httl : (st.smap sid).ttl = 0) :
    alarmLoop st i = alarmLoop (remove_session st sid) (i + 1) := by
  conv_lhs => unfold alarmLoop
  rw [dif_pos h]
  dsimp only
  rw [hsess]
  dsimp only
  rw [if_neg hns, if_pos httl]

lemma alarmLoop_dec (st : PState) (i : Nat) (h : i < st.slots.length)
    (sid : Nat) (hsess : (st.slots.get ⟨i, h⟩).sess = some sid)
    (hns : ¬((st.smap sid).rtcp = none ∨ (st.smap sid).sidx 0 ≠ (i : Int)))
    (httl : ¬(st.smap sid).ttl = 0) :
    alarmLoop st i = alarmLoop (ttlDec st sid) (i + 1) := by
  conv_lhs => unfold alarmLoop
  rw [dif_pos h]
  dsimp only
  rw [hsess]
  dsimp only
  rw [if_neg hns, if_neg httl]

lemma ttlDec_smap_other (st : PState) (sid s : Nat) (h : s ≠ sid) :
    (ttlDec st sid).smap s = st.smap s := by
  unfold ttlDec
  dsimp only
  rw [Function.update_noteq h]

lemma ttlDec_smap_fds (st : PState) (sid s : Nat) :
    ((ttlDec st sid).smap s).fds = (st.smap s).fds := by
  unfold ttlDec
  dsimp only
  rw [Function.update_apply]
  split
  · rename_i hE
    subst hE
    rfl
  · rfl

lemma ttlDec_smap_sidx (st : PState) (sid s : Nat) :
    ((ttlDec st sid).smap s).sidx = (st.smap s).sidx := by
  unfold ttlDec
  dsimp only
  rw [Function.update_apply]
  split
  · rename_i hE
    subst hE
    rfl
  · rfl

lemma ttlDec_smap_rtcp (st : PState) (sid s : Nat) :
    ((ttlDec st sid).smap s).rtcp = (st.smap s).rtcp := by
  unfold ttlDec
  dsimp only
  rw [Function.update_apply]
  split
  · rename_i hE
    subst hE
    rfl
  · rfl

lemma ttlDec_smap_ttl (st : PState) (sid : Nat) :
    ((ttlDec st sid).smap sid).ttl = (st.smap sid).ttl - 1 := by
  unfold ttlDec
  dsimp only
  rw [Function.update_same]

lemma ttlDec_wf (st : PState) (sid : Nat) (hwf : pollWF st) :
    pollWF (ttlDec st sid) :=
  pollWF_ext st (ttlDec st sid) (ttlDec_slots st sid)
    (fun s => ⟨ttlDec_smap_fds st sid s, ttlDec_smap_sidx st sid s⟩) hwf

lemma ttlDec_twinWF (st : PState) (sid : Nat)
    (hrt : (st.smap sid).rtcp ≠ none) (htw : twinWF st) :
    twinWF (ttlDec st sid) := by
  unfold ttlDec
  dsimp only
  exact twinWF_ttl_update st sid _ hrt rfl rfl htw

lemma referenced_ttlDec (st : PState) (sid s : Nat) :
    referenced (ttlDec st sid) s ↔ referenced st s := by
  unfold referenced slotAt
  rw [ttlDec_slots]

/-- Facts about the primary (side-0) slot of a referenced RTP session:
its index is in range, past the control slot, matches `sidx[0]` exactly,
and the sessions array there points back at the session. -/
lemma rtp_primary (st : PState) (hwf : pollWF st) (htw : twinWF st)
    (sid tid : Nat) (href : referenced st sid)
    (hrt : (st.smap sid).rtcp = some tid) :
    1 ≤ legSlot st sid 0 ∧ legSlot st sid 0 < st.slots.length ∧
    (st.smap sid).sidx 0 = (legSlot st sid 0 : Int) ∧
    (slotAt st (legSlot st sid 0)).sess = some sid := by
  obtain ⟨k, hk, hsess⟩ := href
  have hf0 : (st.smap sid).fds 0 ≠ -1 := ((htw k hk sid hsess).1 tid hrt).2.1
  obtain ⟨hge, hgood, -, hse⟩ := refs_fwd st hwf sid ⟨k, hk, hsess⟩ 0 hf0
  rw [goodK_full] at hgood
  refine ⟨hgood.1, hgood.2, ?_, hse⟩
  unfold legSlot
  omega

lemma ref_twinOK (st : PState) (htw : twinWF st) (sid tid : Nat)
    (href : referenced st sid) (hrt : (st.smap sid).rtcp = some tid) :
    rtpTwinOK st sid tid := by
  obtain ⟨k, hk, hsess⟩ := href
  exact (htw k hk sid hsess).1 tid hrt

/-- Distinct live RTP sessions have distinct twins. -/
lemma twin_unique (st : PState) (htw : twinWF st) (sid tid sid2 tid2 : Nat)
    (href : referenced st sid) (hrt : (st.smap sid).rtcp = some tid)
    (href2 : referenced st sid2) (hrt2 : (st.smap sid2).rtcp = some tid2)
    (hne : sid ≠ sid2) : tid ≠ tid2 := by
  intro heq
  obtain ⟨k, hk, hsess⟩ := href
  exact hne ((ref_twinOK st htw sid2 tid2 href2 hrt2).2.2.2 k hk sid hsess
    (heq ▸ hrt))

/-- A twin (an RTCP record) is never itself an RTP session. -/
lemma twin_not_rtp (st : PState) (htw : twinWF st) (sid tid sid2 tid2 : Nat)
    (href : referenced st sid) (hrt : (st.smap sid).rtcp = some tid)
    (hrt2 : (st.smap sid2).rtcp = some tid2) : tid ≠ sid2 := by
  intro heq
  have h1 := (ref_twinOK st htw sid tid href hrt).1
  rw [heq, hrt2] at h1
  exact absurd h1 (by simp)

/-- The housekeeper walk, by induction on the remaining slots: sessions
absent from the table stay absent; RTCP records (`rtcp == NULL`) are never
touched; RTP sessions whose primary slot is already behind the cursor are
untouched from there on and stay live; RTP sessions at or ahead of the
cursor are removed together with their twin when their ttl is 0, and
otherwise get their ttl decremented by exactly one while everything else
about them is preserved. -/
lemma alarmLoop_spec (fuel : Nat) :
    ∀ (st : PState) (i : Nat), st.slots.length - i ≤ fuel → 1 ≤ i →
    pollWF st → twinWF st →
    (∀ s, ¬ referenced st s → ¬ referenced (alarmLoop st i) s) ∧
    (∀ c, (st.smap c).rtcp = none → (alarmLoop st i).smap c = st.smap c) ∧
    (∀ sid tid, referenced st sid → (st.smap sid).rtcp = some tid →
      legSlot st sid 0 < i →
      (alarmLoop st i).smap sid = st.smap sid ∧
      referenced (alarmLoop st i) sid ∧
      (referenced st tid → referenced (alarmLoop st i) tid)) ∧
    (∀ sid tid, referenced st sid → (st.smap sid).rtcp = some tid →
      i ≤ legSlot st sid 0 →
      ((st.smap sid).ttl = 0 →
        ¬ referenced (alarmLoop st i) sid ∧
        ¬ referenced (alarmLoop st i) tid) ∧
      ((st.smap sid).ttl ≠ 0 →
        ((alarmLoop st i).smap sid).ttl = (st.smap sid).ttl - 1 ∧
        ((alarmLoop st i).smap sid).fds = (st.smap sid).fds ∧
        ((alarmLoop st i).smap sid).rtcp = (st.smap sid).rtcp ∧
        referenced (alarmLoop st i) sid ∧
        (referenced st tid → referenced (alarmLoop st i) tid))) := by
  induction fuel with
  | zero =>
    intro st i hfuel hi hwf htw
    rw [alarmLoop_stop st i (by omega)]
    refine ⟨fun s hh => hh, fun c _ => rfl,
      fun sid tid href _ _ => ⟨rfl, href, fun hh => hh⟩,
      fun sid tid href hrt hpend => ?_⟩
    obtain ⟨-, hp2, -, -⟩ := rtp_primary st hwf htw sid tid href hrt
    omega
  | succ fuel ih =>
    intro st i hfuel hi hwf htw
    by_cases h : i < st.slots.length
    case neg =>
      rw [alarmLoop_stop st i h]
      refine ⟨fun s hh => hh, fun c _ => rfl,
        fun sid tid href _ _ => ⟨rfl, href, fun hh => hh⟩,
        fun sid tid href hrt hpend => ?_⟩
      obtain ⟨-, hp2, -, -⟩ := rtp_primary st hwf htw sid tid href hrt
      omega
    case pos =>
    have hslot := slotAt_lt st i h
    cases hcs : (st.slots.get ⟨i, h⟩).sess with
    | none =>
      rw [alarmLoop_none st i h hcs]
      obtain ⟨ihA, ihB, ihC, ihD⟩ :=
        ih st (i + 1) (by omega) (by omega) hwf htw
      refine ⟨ihA, ihB,
        fun sid tid href hrt hlt => ihC sid tid href hrt (by omega), ?_⟩
      intro sid tid href hrt hpend
      obtain ⟨-, -, -, hp4⟩ := rtp_primary st hwf htw sid tid href hrt
      have hne : legSlot st sid 0 ≠ i := by
        intro heq
        rw [heq, hslot, hcs] at hp4
        exact absurd hp4 (by simp)
      exact ihD sid tid href hrt (by omega)
    | some sid0 =>
      by_cases hns : (st.smap sid0).rtcp = none ∨
          (st.smap sid0).sidx 0 ≠ (i : Int)
      · rw [alarmLoop_skip2 st i h sid0 hcs hns]
        obtain ⟨ihA, ihB, ihC, ihD⟩ :=
          ih st (i + 1) (by omega) (by omega) hwf htw
        refine ⟨ihA, ihB,
          fun sid tid href hrt hlt => ihC sid tid href hrt (by omega), ?_⟩
        intro sid tid href hrt hpend
        obtain ⟨-, -, hp3, hp4⟩ := rtp_primary st hwf htw sid tid href hrt
        have hne : legSlot st sid 0 ≠ i := by
          intro heq
          rw [heq, hslot, hcs] at hp4
          have hsid : sid0 = sid := Option.some_inj.mp hp4
          subst hsid
          rcases hns with hx | hx
          · rw [hrt] at hx
            exact absurd hx (by simp)
          · rw [hp3, heq] at hx
            exact hx rfl
        exact ihD sid tid href hrt (by omega)
      · have hskip := hns
        push_neg at hskip
        obtain ⟨hrtne, hsidx0⟩ := hskip
        obtain ⟨tid0, hrt0⟩ : ∃ t, (st.smap sid0).rtcp = some t := by
          cases hh : (st.smap sid0).rtcp with
          | none => exact absurd hh hrtne
          | some t => exact ⟨t, rfl⟩
        have href0 : referenced st sid0 := ⟨i, h, by rw [hslot]; exact hcs⟩
        have htwOK := ref_twinOK st htw sid0 tid0 href0 hrt0
        have hleg0 : legSlot st sid0 0 = i := by
          unfold legSlot
          rw [hsidx0]
          simp
        have hsf : ∀ j : Fin 2, (st.smap sid0).fds j ≠ -1 →
            legFwd st 1 1 sid0 j := refs_fwd st hwf sid0 href0
        have htf : ∀ j : Fin 2, (st.smap tid0).fds j ≠ -1 →
            legFwd st 1 1 tid0 j := by
          rcases htwOK.2.2.1 with hr | hd
          · exact refs_fwd st hwf tid0 hr
          · intro j hj
            exact absurd (hd j) hj
        by_cases httl0 : (st.smap sid0).ttl = 0
        · -- ttl hit 0: the pair is removed, then the walk continues
          rw [alarmLoop_rm st i h sid0 hcs hns httl0]
          have hwf2 : pollWF (remove_session st sid0) :=
            remove_session_wf st sid0 tid0 hwf hrt0 href0 htwOK.2.2.1
          have htw2 : twinWF (remove_session st sid0) :=
            twinWF_remove st sid0 tid0 hwf htw hrt0 href0
          have hlen2 := remove_session_slots_length st sid0
          have hsm2 := remove_session_smap st sid0
          have hunref := remove_session_unref st sid0 tid0 hwf hrt0
          have hrefo : ∀ s, s ≠ sid0 → s ≠ tid0 →
              (referenced (remove_session st sid0) s ↔ referenced st s) :=
            fun s h1 h2 =>
              remove_session_ref_iff st sid0 tid0 s hwf hrt0 h1 h2 hsf htf
          obtain ⟨ihA, ihB, ihC, ihD⟩ :=
            ih (remove_session st sid0) (i + 1) (by omega) (by omega)
              hwf2 htw2
          refine ⟨?_, ?_, ?_, ?_⟩
          · intro s hns2
            exact ihA s (remove_session_not_add st sid0 s tid0 hrt0 hns2)
          · intro c hc
            have he := ihB c (by rw [hsm2]; exact hc)
            rw [he, hsm2]
          · intro sid tid href hrt hlt
            have hne_s : sid ≠ sid0 := by
              intro heq
              rw [heq, hleg0] at hlt
              omega
            have hne_t : sid ≠ tid0 := by
              intro heq
              have h1 := htwOK.1
              rw [← heq, hrt] at h1
              exact absurd h1 (by simp)
            have href2 : referenced (remove_session st sid0) sid :=
              (hrefo sid hne_s hne_t).mpr href
            have htid_ns : tid ≠ sid0 :=
              twin_not_rtp st htw sid tid sid0 tid0 href hrt hrt0
            have htid_nt : tid ≠ tid0 :=
              twin_unique st htw sid tid sid0 tid0 href hrt href0 hrt0 hne_s
            have hrt2 : ((remove_session st sid0).smap sid).rtcp = some tid := by
              rw [hsm2]
              exact hrt
            have hleg2 : legSlot (remove_session st sid0) sid 0 =
                legSlot st sid 0 := by
              unfold legSlot
              rw [hsm2]
            obtain ⟨e1, e2, e3⟩ := ihC sid tid href2 hrt2 (by rw [hleg2]; omega)
            refine ⟨by rw [e1, hsm2], e2, ?_⟩
            intro hreft
            exact e3 ((hrefo tid htid_ns htid_nt).mpr hreft)
          · intro sid tid href hrt hpend
            by_cases heq : sid = sid0
            · subst heq
              have htideq : tid = tid0 := by
                rw [hrt] at hrt0
                exact Option.some_inj.mp hrt0
              subst htideq
              exact ⟨fun _ => ⟨ihA sid hunref.1, ihA tid hunref.2⟩,
                fun hnz => absurd httl0 hnz⟩
            · have hne_t : sid ≠ tid0 := by
                intro heq2
                have h1 := htwOK.1
                rw [← heq2, hrt] at h1
                exact absurd h1 (by simp)
              have href2 : referenced (remove_session st sid0) sid :=
                (hrefo sid heq hne_t).mpr href
              have htid_ns : tid ≠ sid0 :=
                twin_not_rtp st htw sid tid sid0 tid0 href hrt hrt0
              have htid_nt : tid ≠ tid0 :=
                twin_unique st htw sid tid sid0 tid0 href hrt href0 hrt0 heq
              have hrt2 : ((remove_session st sid0).smap sid).rtcp =
                  some tid := by
                rw [hsm2]
                exact hrt
              obtain ⟨-, -, -, hp4⟩ :=
                rtp_primary st hwf htw sid tid href hrt
              have hnei : legSlot st sid 0 ≠ i := by
                intro hE
                rw [hE, hslot, hcs] at hp4
                exact heq (Option.some_inj.mp hp4).symm
              have hleg2 : legSlot (remove_session st sid0) sid 0 =
                  legSlot st sid 0 := by
                unfold legSlot
                rw [hsm2]
              obtain ⟨d0, d1⟩ :=
                ihD sid tid href2 hrt2 (by rw [hleg2]; omega)
              have httl_eq : ((remove_session st sid0).smap sid).ttl =
                  (st.smap sid).ttl := by
                rw [hsm2]
              refine ⟨fun hz => d0 (by rw [httl_eq]; exact hz), fun hnz => ?_⟩
              obtain ⟨f1, f2, f3, f4, f5⟩ := d1 (by rw [httl_eq]; exact hnz)
              refine ⟨by rw [f1, httl_eq], by rw [f2, hsm2],
                by rw [f3, hsm2], f4, ?_⟩
              intro hreft
              exact f5 ((hrefo tid htid_ns htid_nt).mpr hreft)
        · -- live session: ttl is decremented in place
          rw [alarmLoop_dec st i h sid0 hcs hns httl0]
          have hwf2 : pollWF (ttlDec st sid0) := ttlDec_wf st sid0 hwf
          have htw2 : twinWF (ttlDec st sid0) :=
            ttlDec_twinWF st sid0 hrtne htw
          have hlen2 : (ttlDec st sid0).slots.length = st.slots.length := by
            rw [ttlDec_slots]
          have hlegEq : ∀ s (j : Fin 2),
              legSlot (ttlDec st sid0) s j = legSlot st s j := by
            intro s j
            unfold legSlot
            rw [ttlDec_smap_sidx]
          obtain ⟨ihA, ihB, ihC, ihD⟩ :=
            ih (ttlDec st sid0) (i + 1) (by omega) (by omega) hwf2 htw2
          refine ⟨?_, ?_, ?_, ?_⟩
          · intro s hns2
            exact ihA s (fun hr => hns2 ((referenced_ttlDec st sid0 s).mp hr))
          · intro c hc
            have hcne : c ≠ sid0 := by
              intro hE
              rw [hE, hrt0] at hc
              exact absurd hc (by simp)
            have he := ihB c (by rw [ttlDec_smap_rtcp]; exact hc)
            rw [he, ttlDec_smap_other st sid0 c hcne]
          · intro sid tid href hrt hlt
            have hne_s : sid ≠ sid0 := by
              intro heq
              rw [heq, hleg0] at hlt
              omega
            have href2 := (referenced_ttlDec st sid0 sid).mpr href
            have hrt2 : ((ttlDec st sid0).smap sid).rtcp = some tid := by
              rw [ttlDec_smap_other st sid0 sid hne_s]
              exact hrt
            obtain ⟨e1, e2, e3⟩ :=
              ihC sid tid href2 hrt2 (by rw [hlegEq]; omega)
            refine ⟨by rw [e1, ttlDec_smap_other st sid0 sid hne_s], e2, ?_⟩
            intro hreft
            exact e3 ((referenced_ttlDec st sid0 tid).mpr hreft)
          · intro sid tid href hrt hpend
            by_cases heq : sid = sid0
            · subst heq
              refine ⟨fun hz => absurd hz httl0, fun _ => ?_⟩
              have href2 := (referenced_ttlDec st sid sid).mpr href
              have hrt2 : ((ttlDec st sid).smap sid).rtcp = some tid := by
                rw [ttlDec_smap_rtcp]
                exact hrt
              obtain ⟨e1, e2, e3⟩ :=
                ihC sid tid href2 hrt2 (by rw [hlegEq, hleg0]; omega)
              refine ⟨by rw [e1, ttlDec_smap_ttl], by rw [e1, ttlDec_smap_fds],
                by rw [e1, ttlDec_smap_rtcp], e2, ?_⟩
              intro hreft
              exact e3 ((referenced_ttlDec st sid tid).mpr hreft)
            · have href2 := (referenced_ttlDec st sid0 sid).mpr href
              have hrt2 : ((ttlDec st sid0).smap sid).rtcp = some tid := by
                rw [ttlDec_smap_other st sid0 sid heq]
                exact hrt
              obtain ⟨-, -, -, hp4⟩ :=
                rtp_primary st hwf htw sid tid href hrt
              have hnei : legSlot st sid 0 ≠ i := by
                intro hE
                rw [hE, hslot, hcs] at hp4
                exact heq (Option.some_inj.mp hp4).symm
              obtain ⟨d0, d1⟩ :=
                ihD sid tid href2 hrt2 (by rw [hlegEq]; omega)
              have httl_eq : ((ttlDec st sid0).smap sid).ttl =
                  (st.smap sid).ttl := by
                rw [ttlDec_smap_other st sid0 sid heq]
              refine ⟨fun hz => d0 (by rw [httl_eq]; exact hz), fun hnz => ?_⟩
              obtain ⟨f1, f2, f3, f4, f5⟩ := d1 (by rw [httl_eq]; exact hnz)
              refine ⟨by rw [f1, httl_eq], by rw [f2, ttlDec_smap_fds],
                by rw [f3, ttlDec_smap_rtcp], f4, ?_⟩
              intro hreft
              exact f5 ((referenced_ttlDec st sid0 tid).mpr hreft)

/-- C7 (amended): on each housekeeper tick every table-referenced RTP
session with ttl 0 is removed together with its RTCP twin, every other
referenced RTP session has its ttl decremented by exactly one and stays
live, and an RTCP record (`rtcp == NULL`, carrying the `-1` ttl sentinel
from creation) is never itself timed: its session entry is untouched.
The RTCP record is skipped by the `sp->rtcp == NULL` test, not by the
`sidx[0] == i` filter of the claim: at the RTCP's own poll slot
`sidx[0] == i` holds, so that filter would process it (that filter only
suppresses the second appearance of an RTP session, at its side-1 slot). -/
theorem claim_C7 (st : PState) (hwf : pollWF st) (htw : twinWF st) :
    (∀ c, (st.smap c).rtcp = none → (alarmhandler st).smap c = st.smap c) ∧
    (∀ sid tid, referenced st sid → (st.smap sid).rtcp = some tid →
      ((st.smap sid).ttl = 0 →
        ¬ referenced (alarmhandler st) sid ∧
        ¬ referenced (alarmhandler st) tid) ∧
      ((st.smap sid).ttl ≠ 0 →
        ((alarmhandler st).smap sid).ttl = (st.smap sid).ttl - 1 ∧
        referenced (alarmhandler st) sid ∧
        (referenced st tid → referenced (alarmhandler st) tid))) ∧
    (∀ s, ¬ referenced st s → ¬ referenced (alarmhandler st) s) := by
  unfold alarmhandler
  obtain ⟨hA, hB, -, hD⟩ :=
    alarmLoop_spec st.slots.length st 1 (by omega) (le_refl 1) hwf htw
  refine ⟨hB, ?_, hA⟩
  intro sid tid href hrt
  obtain ⟨hp1, -, -, -⟩ := rtp_primary st hwf htw sid tid href hrt
  obtain ⟨d0, d1⟩ := hD sid tid href hrt hp1
  exact ⟨d0, fun hnz =>
    ⟨(d1 hnz).1, (d1 hnz).2.2.2.1, (d1 hnz).2.2.2.2⟩⟩

/-- Counterexample to C7 as stated: in `pstA` session 2 is the RTCP twin
(`rtcp = none`, ttl sentinel `-1`) sitting at poll slot 2 with
`sidx[0] = 2`, so the `sidx[0] == i` filter does *not* skip it — the
`rtcp == NULL` test does; one housekeeper tick leaves it untouched and
live while the RTP partner at slot 1 is the only session timed. -/
theorem claim_C7_counterexample :
    (pstA.smap 2).rtcp = none ∧
    (pstA.smap 2).ttl = -1 ∧
    (slotAt pstA 2).sess = some 2 ∧
    (pstA.smap 2).sidx 0 = (2 : Int) ∧
    alarmhandler pstA = ttlDec pstA 1 ∧
    (alarmhandler pstA).smap 2 = pstA.smap 2 ∧
    referenced (alarmhandler pstA) 2 := by
  have h1 : (1 : Nat) < pstA.slots.length := by decide
  have hred : alarmhandler pstA = ttlDec pstA 1 := by
    unfold alarmhandler
    rw [alarmLoop_dec pstA 1 h1 1 rfl (by decide) (by decide)]
    rw [alarmLoop_skip2 (ttlDec pstA 1) 2 (by decide) 2 rfl (by decide)]
    exact alarmLoop_stop (ttlDec pstA 1) 3 (by decide)
  refine ⟨rfl, rfl, rfl, rfl, hred, ?_, ?_⟩
  · rw [hred]
    exact ttlDec_smap_other pstA 1 2 (by decide)
  · rw [hred, referenced_ttlDec pstA 1 2]
    decide

/-- Witness: on the concrete state `pstA` the amended C7 applies and shows
the RTCP record's entry survives the tick unchanged. -/
theorem claim_C7_witness :
    pollWF pstA ∧ twinWF pstA ∧
    (alarmhandler pstA).smap 2 = pstA.smap 2 :=
  ⟨by decide, by decide, (claim_C7 pstA (by decide) (by decide)).1 2 rfl⟩

/-! ## Command processor (`handle_command`, src/main.c lines 314-999)

Strings are lists of characters (the NUL terminator is the end of the
list).  Addresses are opaque identifiers: `resolve` is the
`getaddrinfo` oracle mapping a protocol family and the textual
`addr`/`port` arguments to a host id and numeric port, and `hostnull`
tells which host ids are the null host (`ishostnull`).  Bind addresses
(`cf->bindaddr[]`, `laddr[]`, `lia[]`) are `Option Nat`: `none` is a
NULL pointer.  The control-channel framing (read/recvfrom, argv
splitting and the cookie shuffle) is outside the model: a command
enters as its argv list, after cookie removal. -/

def digitsAcc : List Char → Nat → Nat × List Char
  | c :: rest, a =>
    if c.isDigit then digitsAcc rest (a * 10 + (c.toNat - 48))
    else (a, c :: rest)
  | [], a => (a, [])

lemma digitsAcc_length (s : List Char) (a : Nat) :
    (digitsAcc s a).2.length ≤ s.length := by
  induction s generalizing a with
  | nil => simp [digitsAcc]
  | cons c rest ihr =>
    unfold digitsAcc
    split
    · exact le_trans (ihr _) (by simp)
    · simp

/-- `strtol(s, &end, 10)`: optional sign, then digits; when no digit
follows, the value is 0 and the end pointer does not move. -/
def strtolL (s : List Char) : Int × List Char :=
  match s with
  | '-' :: rest =>
    if (rest.headD ' ').isDigit then
      let p := digitsAcc rest 0
      (-(p.1 : Int), p.2)
    else (0, s)
  | '+' :: rest =>
    if (rest.headD ' ').isDigit then
      let p := digitsAcc rest 0
      ((p.1 : Int), p.2)
    else (0, s)
  | _ =>
    let p := digitsAcc s 0
    ((p.1 : Int), p.2)

lemma strtolL_length (s : List Char) : (strtolL s).2.length ≤ s.length := by
  unfold strtolL
  split
  · split
    · exact le_trans (digitsAcc_length _ 0) (by simp)
    · simp
  · split
    · exact le_trans (digitsAcc_length _ 0) (by simp)
    · simp
  · exact digitsAcc_length _ 0

/-- `strtoul(s, NULL, 10)` for the medianum suffix. -/
def strtoulL (s : List Char) : Nat :=
  (digitsAcc s 0).1

/-- Model of `compare_session_tags` (src/main.c lines 296-312): returns
the comparison result (0 = no match, 1 = exact, 2 = tag0 followed by
`;medianum`) together with the parsed medianum. -/
def compare_session_tags (tag1 tag0 : List Char) : Nat × Nat :=
  if tag1.take tag0.length = tag0 then
    match tag1.drop tag0.length with
    | [] => (1, 0)
    | c :: rest => if c = ';' then (2, strtoulL rest) else (0, 0)
  else (0, 0)

/-- One `struct rtpp_session` as `handle_command` sees it. -/
structure CSession where
  call_id : List Char
  tag : List Char
  fds : Fin 2 → Int
  ports : Fin 2 → Int
  laddr : Fin 2 → Option Nat
  addr : Fin 2 → Option (Nat × Nat)
  asymmetric : Fin 2 → Bool
  canupdate : Fin 2 → Bool
  strong : Nat
  weak : Fin 2 → Nat
  ttl : Int
  sidx : Fin 2 → Int
  rtcp : Option Nat
  rtp : Option Nat
  resize : Fin 2 → Int
  rtps : Fin 2 → Bool
  rrcs : Fin 2 → Bool
  complete : Bool

/-- The daemon state touched by the command processor: the
`cf->sessions[]` slot array (slot 0 is the control socket), the session
records by id, the two port cursors and the id supply for fresh
sessions. -/
structure CState where
  sessions : List (Option Nat)
  smap : Nat → CSession
  nextport : Fin 2 → Int
  nextsid : Nat

/-- Static configuration: bridge mode, the one or two bind addresses,
port range, `max_ttl`, recording directory and `rrtcp` switches, the
socket-layer oracle for the allocator and the resolver oracle. -/
structure CCfg where
  bmode : Bool
  bindaddr : Fin 2 → Option Nat
  port_min : Int
  port_max : Int
  max_ttl : Int
  rdir : Bool
  rrtcp : Bool
  env : BindEnv
  resolve : Nat → List Char → List Char → Option (Nat × Nat)
  hostnull : Nat → Bool

/-- Fuel that lets `create_listener` do a full revolution. -/
def clFuel (cf : CCfg) : Nat :=
  ((cf.port_max - cf.port_min).toNat + 4) / 2 + 2

/-- `append_session` on the command-level state (same src lines
119-133). -/
def cAppend (st : CState) (sid : Nat) (j : Fin 2) : CState :=
  let sp := st.smap sid
  if sp.fds j ≠ -1 then
    let sp2 := { sp with sidx := Function.update sp.sidx j (st.sessions.length : Int) }
    { st with
      sessions := st.sessions ++ [some sid],
      smap := Function.update st.smap sid sp2 }
  else
    let sp2 := { sp with sidx := Function.update sp.sidx j (-1) }
    { st with smap := Function.update st.smap sid sp2 }

/-- One slot-clearing step of `remove_session` on the command state. -/
def cClear (st : CState) (sid : Nat) (j : Fin 2) : CState :=
  let sp := st.smap sid
  if sp.fds j ≠ -1 then
    { st with sessions := st.sessions.set (sp.sidx j).toNat none }
  else st

/-- `remove_session` on the command state (src/main.c lines 170-222). -/
def cRemove (st : CState) (sid : Nat) : CState :=
  match (st.smap sid).rtcp with
  | some tid =>
    cClear (cClear (cClear (cClear st sid 0) tid 0) sid 1) tid 1
  | none => cClear (cClear st sid 0) sid 1

/-- The variables of the modifier-parsing loop (src/main.c lines
565-632). -/
structure ModState where
  asymmetric : Bool
  pf : Nat
  weak : Bool
  lidx : Int
  lia : Fin 2 → Option Nat
  requested_nsamples : Int

def lidxFin (l : Int) : Fin 2 :=
  if l = 0 then 0 else 1

/-- The modifier loop over the command tail (src/main.c lines 571-632):
`a`/`A` set asymmetric, `e`/`E` and `i`/`I` pick bind addresses into
`lia[lidx--]` (error 1 when exhausted), `6` switches the family, `s`/`S`
clears asymmetric, `w`/`W` sets weak, `z`/`Z` parses a millisecond count
and fails with error 1 when `(value / 10) * 80 <= 0`, and any other
character is logged and ignored. -/
def parseModsF (cf : CCfg) : Nat → List Char → ModState → Except Nat ModState
  | _, [], ms => Except.ok ms
  | 0, _ :: _, ms => Except.ok ms
  | Nat.succ fuel, c :: cp, ms =>
    if c = 'a' ∨ c = 'A' then
      parseModsF cf fuel cp { ms with asymmetric := true }
    else if c = 'e' ∨ c = 'E' then
      if ms.lidx < 0 then Except.error 1
      else parseModsF cf fuel cp { ms with
        lia := Function.update ms.lia (lidxFin ms.lidx) (cf.bindaddr 1),
        lidx := ms.lidx - 1 }
    else if c = 'i' ∨ c = 'I' then
      if ms.lidx < 0 then Except.error 1
      else parseModsF cf fuel cp { ms with
        lia := Function.update ms.lia (lidxFin ms.lidx) (cf.bindaddr 0),
        lidx := ms.lidx - 1 }
    else if c = '6' then
      parseModsF cf fuel cp { ms with pf := 6 }
    else if c = 's' ∨ c = 'S' then
      parseModsF cf fuel cp { ms with asymmetric := false }
    else if c = 'w' ∨ c = 'W' then
      parseModsF cf fuel cp { ms with weak := true }
    else if c = 'z' ∨ c = 'Z' then
      let p := strtolL cp
      let rn := (Int.div p.1 10) * 80
      if rn ≤ 0 then Except.error 1
      else parseModsF cf fuel p.2 { ms with requested_nsamples := rn }
    else
      parseModsF cf fuel cp ms

/-- Wrapper starting the walk with enough fuel: every step consumes at
least one character, so the fuel-exhaustion case is unreachable. -/
def parseMods (cf : CCfg) (cs : List Char) (ms : ModState) :
    Except Nat ModState :=
  parseModsF cf cs.length cs ms

/-- Replies of the command processor: `E<n>` error lines, the bare `0`
acknowledgement, a port reply (with the local address unless it is NULL
or the null host), and the version / info reports. -/
inductive Reply where
  | rerr (e : Nat)
  | rok
  | rport (lport : Int) (host : Option Nat)
  | rversion
  | rinfo
deriving DecidableEq

/-- How the session-matching loop ends: `goto writeport` with a matched
session and the loop-set values, a direct reply (`do_ok`, errors), or
falling off the table with nothing found on a `U` request (session
creation follows). -/
inductive LoopRes where
  | lfound (st : CState) (sid : Nat) (side : Fin 2) (lport : Int)
      (lia0 : Option Nat) (pidx : Int)
  | lreply (st : CState) (r : Reply)
  | lnone (st : CState)

/-- The reference update of a matched `U`/`L` (src/main.c lines
784-787): `if (weak) spa->weak[i] = 1; else if (response == 0)
spa->strong = 1;` — a weak offer re-arms `weak[i]`, a plain `U` re-arms
`strong`, and a plain `L` (`response != 0`) sets neither. -/
def applyULRefs (weak response : Bool) (side : Fin 2) (sp : CSession) :
    CSession :=
  if weak then { sp with weak := Function.update sp.weak side 1 }
  else if response = false then { sp with strong := 1 }
  else sp

/-- State change of the matched `U`/`L` tail: apply the reference update
and restart the session timer. -/
def ulState (cf : CCfg) (weak response : Bool) (st : CState) (sid : Nat)
    (side : Fin 2) : CState :=
  let spa2 := applyULRefs weak response side (st.smap sid)
  let spa3 := { spa2 with ttl := cf.max_ttl }
  { st with smap := Function.update st.smap sid spa3 }

/-- Tail of the matched `U`/`L` body (src/main.c lines 784-797): set the
reference, restart the session timer, and leave for `writeport` with the
matched side's port and local address and `pidx` the opposite side. -/
def ulTail (cf : CCfg) (weak response : Bool) (st : CState) (sid : Nat)
    (side : Fin 2) : LoopRes :=
  let st2 := ulState cf weak response st sid side
  .lfound st2 sid side ((st2.smap sid).ports side)
    ((st2.smap sid).laddr side) (if side = 0 then 1 else 0)

/-- The session-matching loop of `handle_command` (src/main.c lines
663-806).  Slots are scanned from 1; a slot is skipped unless it holds
an RTP session (`rtcp != NULL`) at its primary position
(`sidx[0] == i`) with the command's call id.  On a tag match the C code
overwrites the loop variable `i` with the matched side
(`i = (request == 0) ? 1 : 0` and its mirror), so after a `continue` the
scan resumes from `side + 1`, not from the matched slot — `fuel` bounds
the resulting walk.  A matched `D` drops one reference and removes the
pair only when no references remain; matched `R`/`S` act and
acknowledge; matched `U`/`L` allocate the side's listener pair on
demand and leave for `writeport`. -/
def cmdLoop (cf : CCfg) (request response delete record noplay weak : Bool)
    (call_id from_tag : List Char) (to_tag : Option (List Char))
    (lia0 : Option Nat) :
    Nat → CState → Nat → Nat → Option LoopRes
  | 0, _, _, _ => none
  | Nat.succ fuel, st, i, ndeleted =>
    if i < st.sessions.length then
      match st.sessions.getD i none with
      | none => cmdLoop cf request response delete record noplay weak
          call_id from_tag to_tag lia0 fuel st (i + 1) ndeleted
      | some sid =>
        let spa := st.smap sid
        match spa.rtcp with
        | none => cmdLoop cf request response delete record noplay weak
            call_id from_tag to_tag lia0 fuel st (i + 1) ndeleted
        | some tid =>
          if spa.sidx 0 ≠ (i : Int) ∨ spa.call_id ≠ call_id then
            cmdLoop cf request response delete record noplay weak
              call_id from_tag to_tag lia0 fuel st (i + 1) ndeleted
          else
            let m1 := compare_session_tags spa.tag from_tag
            let sc : Option (Fin 2 × Nat) :=
              if m1.1 ≠ 0 then
                some (if request then 0 else 1, m1.1)
              else
                match to_tag with
                | some t =>
                  let mt := compare_session_tags spa.tag t
                  if mt.1 ≠ 0 then
                    some (if request then 1 else 0, mt.1)
                  else none
                | none => none
            match sc with
            | none => cmdLoop cf request response delete record noplay weak
                call_id from_tag to_tag lia0 fuel st (i + 1) ndeleted
            | some (side, cmpr) =>
              if delete then
                let spa2 :=
                  if weak then
                    { spa with weak := Function.update spa.weak side 0 }
                  else { spa with strong := 0 }
                let st2 := { st with smap := Function.update st.smap sid spa2 }
                if spa2.strong ≠ 0 ∨ spa2.weak 0 ≠ 0 ∨ spa2.weak 1 ≠ 0 then
                  cmdLoop cf request response delete record noplay weak
                    call_id from_tag to_tag lia0 fuel st2 (side.val + 1)
                    (ndeleted + 1)
                else
                  let st3 := cRemove st2 sid
                  if cmpr = 2 then
                    cmdLoop cf request response delete record noplay weak
                      call_id from_tag to_tag lia0 fuel st3 (side.val + 1)
                      (ndeleted + 1)
                  else some (.lreply st3 .rok)
              else if noplay then
                let spa2 := { spa with rtps := Function.update spa.rtps side false }
                some (.lreply { st with smap := Function.update st.smap sid spa2 } .rok)
              else if record then
                if cf.rdir then
                  let spa2 := { spa with rrcs := Function.update spa.rrcs side true }
                  let spb := st.smap tid
                  let spb2 :=
                    if cf.rrtcp then
                      { spb with rrcs := Function.update spb.rrcs side true }
                    else spb
                  let st2 := { st with
                    smap := Function.update (Function.update st.smap sid spa2) tid spb2 }
                  some (.lreply st2 .rok)
                else some (.lreply st .rok)
              else
                -- matched U / L
                if spa.fds side = -1 then
                  let jj : Fin 2 :=
                    if cf.bindaddr 0 = spa.laddr side then 0 else 1
                  match (create_listener cf.env cf.port_min cf.port_max
                      (st.nextport jj) (clFuel cf)).2 with
                  | none => none
                  | some .clfail => some (.lreply st (.rerr 7))
                  | some (.clok lp f0 f1) =>
                    let spa2 := { spa with
                      fds := Function.update spa.fds side f0,
                      ports := Function.update spa.ports side lp,
                      complete := true }
                    let spb := st.smap tid
                    let spb2 := { spb with
                      fds := Function.update spb.fds side f1,
                      ports := Function.update spb.ports side (lp + 1),
                      complete := true }
                    let st2 := { st with
                      smap := Function.update (Function.update st.smap sid spa2) tid spb2,
                      nextport := Function.update st.nextport jj (lp + 2) }
                    let st3 := cAppend (cAppend st2 sid side) tid side
                    some (ulTail cf weak response st3 sid side)
                else some (ulTail cf weak response st sid side)
    else
      -- fell off the table (src/main.c lines 806-831)
      if delete ∧ ndeleted ≠ 0 then some (.lreply st .rok)
      else if delete ∨ record ∨ noplay then some (.lreply st (.rerr 8))
      else if response then some (.lfound st 0 0 0 lia0 (-1))
      else some (.lnone st)

/-- The `writeport` tail of `handle_command` (src/main.c lines
911-966): when a session is at hand (`pidx >= 0`), install the resolved
address pair on the session and its RTCP twin unless it is already
recorded, set the side's asymmetric/canupdate flags, store the requested
resizer sample count for `U`/`L`, and reply with the local port and the
`lia[0]` address (suppressed when NULL or the null host). -/
def writeport (cf : CCfg) (st : CState) (spaOpt : Option Nat) (lport : Int)
    (lia0 : Option Nat) (pidx : Int) (ia : Option (Nat × Nat))
    (asym request response : Bool) (reqn : Int) : CState × Reply :=
  let st2 :=
    match spaOpt with
    | none => st
    | some sid =>
      if pidx ≥ 0 then
        let p : Fin 2 := if pidx = 0 then 0 else 1
        let spa := st.smap sid
        let spa2 :=
          match ia with
          | none => spa
          | some hp =>
            if spa.addr p = some hp then spa
            else { spa with addr := Function.update spa.addr p (some hp) }
        let spa3 := { spa2 with
          asymmetric := Function.update spa2.asymmetric p asym,
          canupdate := Function.update spa2.canupdate p (!asym) }
        let spa4 :=
          if request || response then
            { spa3 with resize := Function.update spa3.resize p reqn }
          else spa3
        match spa.rtcp with
        | none => { st with smap := Function.update st.smap sid spa4 }
        | some tid =>
          let spb := st.smap tid
          let spb2 :=
            match ia with
            | none => spb
            | some hp =>
              if spb.addr p = some (hp.1, hp.2 + 1) then spb
              else { spb with addr := Function.update spb.addr p (some (hp.1, hp.2 + 1)) }
          let spb3 := { spb2 with
            asymmetric := Function.update spb2.asymmetric p asym,
            canupdate := Function.update spb2.canupdate p (!asym) }
          { st with
            smap := Function.update (Function.update st.smap sid spa4) tid spb3 }
      else st
  (st2, .rport lport (match lia0 with
    | none => none
    | some hh => if cf.hostnull hh then none else some hh))

/-- `handle_command` from the command switch on (src/main.c lines
420-999), for the session verbs and the version/info queries; the `P`
(play) commands are outside the model (`none`), as is a run of the
matching loop that exceeds `fuel` rescans. -/
def handle_command (cf : CCfg) (st : CState) (argv : List (List Char))
    (fuel : Nat) : Option (CState × Reply) :=
  let argc := argv.length
  if argc < 1 then some (st, .rerr 0)
  else
    let a0 := argv.headD []
    let c0 := a0.headD ' '
    if c0 == 'v' || c0 == 'V' then
      if a0.getD 1 ' ' == 'f' || a0.getD 1 ' ' == 'F' then
        if argc ≠ 2 ∧ argc ≠ 3 then some (st, .rerr 2)
        else some (st, .rversion)
      else if argc ≠ 1 ∧ argc ≠ 2 then some (st, .rerr 2)
      else some (st, .rversion)
    else if c0 == 'i' || c0 == 'I' then some (st, .rinfo)
    else if c0 == 'p' || c0 == 'P' then none
    else
      let request := c0 == 'u' || c0 == 'U'
      let response := c0 == 'l' || c0 == 'L'
      let delete := c0 == 'd' || c0 == 'D'
      let record := c0 == 'r' || c0 == 'R'
      let noplay := c0 == 's' || c0 == 'S'
      if ¬(request || response || delete || record || noplay) then
        some (st, .rerr 3)
      else
        let call_id := argv.getD 1 []
        if (request || response) ∧ (argc < 5 ∨ argc > 6) then
          some (st, .rerr 4)
        else if (delete || record || noplay) ∧ (argc < 3 ∨ argc > 4) then
          some (st, .rerr 1)
        else if (delete || record || noplay) ∧ a0.tail ≠ [] then
          some (st, .rerr 1)
        else
          let from_tag :=
            if request || response then argv.getD 4 [] else argv.getD 2 []
          let to_tag :=
            if request || response then argv.get? 5 else argv.get? 3
          let addr := argv.getD 2 []
          let port := argv.getD 3 []
          let ms0 : ModState := ⟨cf.bmode, 4, false, 1, fun _ => cf.bindaddr 0, -1⟩
          let pm := if request || response || delete then
              parseMods cf a0.tail ms0
            else Except.ok ms0
          match pm with
          | .error e => some (st, .rerr e)
          | .ok ms =>
            let ia : Option (Nat × Nat) :=
              if (request || response) ∧ addr.length ≥ 7 then
                match cf.resolve ms.pf addr port with
                | some hp => if cf.hostnull hp.1 then none else some hp
                | none => none
              else none
            match cmdLoop cf request response delete record noplay ms.weak
                call_id from_tag to_tag (ms.lia 0) fuel st 1 0 with
            | none => none
            | some (.lreply st2 r) => some (st2, r)
            | some (.lfound st2 sid _ lport lia0 pidx) =>
              some (writeport cf st2 (some sid) lport lia0 pidx ia
                ms.asymmetric request response ms.requested_nsamples)
            | some (.lnone st2) =>
              -- new session (src/main.c lines 836-908)
              let jj : Fin 2 := if cf.bindaddr 0 = ms.lia 0 then 0 else 1
              match (create_listener cf.env cf.port_min cf.port_max
                  (st2.nextport jj) (clFuel cf)).2 with
              | none => none
              | some .clfail => some (st2, .rerr 10)
              | some (.clok lp f0 f1) =>
                let sid := st2.nextsid
                let tid := sid + 1
                let spa : CSession := {
                  call_id := call_id,
                  tag := from_tag,
                  fds := fun j => if j = 0 then f0 else -1,
                  ports := fun j => if j = 0 then lp else 0,
                  laddr := ms.lia,
                  addr := fun _ => none,
                  asymmetric := fun _ => false,
                  canupdate := fun _ => false,
                  strong := if ms.weak then 0 else 1,
                  weak := fun j => if ms.weak ∧ j = 0 then 1 else 0,
                  ttl := cf.max_ttl,
                  sidx := fun _ => -1,
                  rtcp := some tid,
                  rtp := none,
                  resize := fun _ => 0,
                  rtps := fun _ => false,
                  rrcs := fun _ => false,
                  complete := false }
                let spb : CSession := { spa with
                  fds := fun j => if j = 0 then f1 else -1,
                  ports := fun j => if j = 0 then lp + 1 else 0,
                  strong := 0,
                  weak := fun _ => 0,
                  ttl := -1,
                  rtcp := none,
                  rtp := some sid }
                let st3 := { st2 with
                  smap := Function.update (Function.update st2.smap sid spa) tid spb,
                  nextport := Function.update st2.nextport jj (lp + 2),
                  nextsid := sid + 2 }
                let st4 := cAppend (cAppend (cAppend (cAppend st3 sid 0) sid 1) tid 0) tid 1
                some (writeport cf st4 (some sid) lp (ms.lia 0) 1 ia
                  ms.asymmetric request response ms.requested_nsamples)

/-! ### Concrete command scenarios -/

/-- Test configuration: plain mode, two bind addresses (ids 10/11, both
non-null), ports 10000-10010, every bind succeeding, a resolver that
maps `0.0.0.0` to the null host (id 0) and anything else to host 7 at
port 3000. -/
def cfgT : CCfg :=
  { bmode := false,
    bindaddr := fun j => if j = 0 then some 10 else some 11,
    port_min := 10000,
    port_max := 10010,
    max_ttl := 60,
    rdir := false,
    rrtcp := true,
    env := evenEnv,
    resolve := fun _ a _ =>
      if a = "0.0.0.0".toList then some (0, 3000) else some (7, 3000),
    hostnull := fun h => h == 0 }

/-- A zeroed session record (`memset(spa, 0, ...)` state). -/
def blankCS : CSession :=
  ⟨[], [], fun _ => -1, fun _ => 0, fun _ => none, fun _ => none,
   fun _ => false, fun _ => false, 0, fun _ => 0, 0, fun _ => -1,
   none, none, fun _ => 0, fun _ => false, fun _ => false, false⟩

/-- Empty daemon state: only the control slot, fresh cursors. -/
def cst0 : CState := ⟨[none], fun _ => blankCS, fun _ => 10000, 1⟩

def argvUW : List (List Char) :=
  ["UW".toList, "c1".toList, "1.2.3.4".toList, "5000".toList, "tagA".toList]

def argvU : List (List Char) :=
  ["U".toList, "c1".toList, "1.2.3.4".toList, "5000".toList, "tagA".toList]

def argvL : List (List Char) :=
  ["L".toList, "c1".toList, "5.6.7.8".toList, "5002".toList,
   "tagA".toList, "tagB".toList]

def argvD : List (List Char) :=
  ["D".toList, "c1".toList, "tagA".toList, "tagB".toList]

def argvDW : List (List Char) :=
  ["DW".toList, "c1".toList, "tagA".toList, "tagB".toList]

/-- State after the weak offer `UW c1 ...` on the empty table. -/
def st1c : CState :=
  ((handle_command cfgT cst0 argvUW 20).getD (cst0, .rok)).1

/-- State after the answering `L c1 ...` on `st1c`. -/
def st2c : CState :=
  ((handle_command cfgT st1c argvL 20).getD (cst0, .rok)).1

/-- State after a strong offer `U c1 ...` on the empty table. -/
def su1c : CState :=
  ((handle_command cfgT cst0 argvU 20).getD (cst0, .rok)).1

/-- Counterexample to C3 as stated: after `UW` then matching `L` the
session holds `strong = 0` (a plain `L` sets no reference), and `DW` is
rejected with the syntax error E1 (`D` accepts no modifiers), leaving
the table untouched rather than reaping the session. -/
theorem claim_C3_counterexample :
    (st2c.smap 1).strong = 0 ∧
    ¬(st2c.smap 1).strong = 1 ∧
    (handle_command cfgT st2c argvDW 20).map Prod.snd =
      some (Reply.rerr 1) ∧
    ((handle_command cfgT st2c argvDW 20).getD (cst0, .rok)).1.sessions =
      st2c.sessions := by
  refine ⟨by decide, by decide, by decide, by decide⟩

/-- C3 (amended): `UW` then matching `L` leaves `weak[0] = 1, strong = 0`
(the `L` sets nothing); a plain `D` matching the tags clears `strong` and
the session persists with `weak[0]` still 1, acknowledged with `0`; `DW`
is the syntax error E1, since `D` takes no modifiers; and a session whose
references all drop to zero on a `D` (here: created strong, never made
weak) is removed from the table in the same command. -/
theorem claim_C3 :
    (handle_command cfgT cst0 argvUW 20).map Prod.snd =
      some (Reply.rport 10000 (some 10)) ∧
    (st1c.smap 1).strong = 0 ∧ (st1c.smap 1).weak 0 = 1 ∧
    (handle_command cfgT st1c argvL 20).map Prod.snd =
      some (Reply.rport 10002 (some 10)) ∧
    (st2c.smap 1).strong = 0 ∧ (st2c.smap 1).weak 0 = 1 ∧
    (handle_command cfgT st2c argvD 20).map Prod.snd = some Reply.rok ∧
    ((handle_command cfgT st2c argvD 20).getD (cst0, .rok)).1.sessions =
      st2c.sessions ∧
    (((handle_command cfgT st2c argvD 20).getD (cst0, .rok)).1.smap 1).weak 0
      = 1 ∧
    (handle_command cfgT st2c argvDW 20).map Prod.snd =
      some (Reply.rerr 1) ∧
    (su1c.smap 1).strong = 1 ∧ (su1c.smap 1).weak 0 = 0 ∧
    (handle_command cfgT su1c argvD 20).map Prod.snd = some Reply.rok ∧
    ((handle_command cfgT su1c argvD 20).getD (cst0, .rok)).1.sessions =
      [none, none, none] := by
  refine ⟨by decide, by decide, by decide, by decide, by decide, by decide,
    by decide, by decide, by decide, by decide, by decide, by decide,
    by decide, by decide⟩

/-- C8: the reference update of a matched `U`/`L` (src/main.c lines
784-787) sets `weak[i]` when `W` is present, sets `strong` on a plain
`U`, and on a plain `L` changes nothing — so the `UW`-created session
answered by a plain `L` still has `strong = 0` and keeps only its weak
reference. -/
theorem claim_C8 :
    (∀ (resp : Bool) (side : Fin 2) (sp : CSession),
      (applyULRefs true resp side sp).weak side = 1) ∧
    (∀ (side : Fin 2) (sp : CSession),
      (applyULRefs false false side sp).strong = 1) ∧
    (∀ (side : Fin 2) (sp : CSession),
      applyULRefs false true side sp = sp) ∧
    (st2c.smap 1).strong = 0 ∧ (st2c.smap 1).weak 0 = 1 := by
  refine ⟨?_, ?_, ?_, by decide, by decide⟩
  · intro resp side sp
    unfold applyULRefs
    simp
  · intro side sp
    unfold applyULRefs
    simp
  · intro side sp
    unfold applyULRefs
    simp

/-- Witness for C8 at concrete inputs. -/
theorem claim_C8_witness :
    (applyULRefs true false 0 blankCS).weak 0 = 1 ∧
    (applyULRefs false false 0 blankCS).strong = 1 ∧
    applyULRefs false true 0 blankCS = blankCS :=
  ⟨claim_C8.1 false 0 blankCS, claim_C8.2.1 0 blankCS,
   claim_C8.2.2.1 0 blankCS⟩

def argvUZ5 : List (List Char) :=
  ["UZ5".toList, "c1".toList, "1.2.3.4".toList, "5000".toList, "tagA".toList]

def argvUQ : List (List Char) :=
  ["UQ".toList, "c1".toList, "1.2.3.4".toList, "5000".toList, "tagA".toList]

/-- A modifier state for witnesses. -/
def msX : ModState := ⟨false, 4, false, 1, fun _ => none, -1⟩

/-- C10: a `Z` modifier whose parsed value lies in (0, 10) makes the
modifier loop fail with error 1, because `(value / 10) * 80` is 0 under
truncating integer division; any unrecognized modifier character is
ignored and parsing proceeds; end to end, `UZ5 ...` is answered with
`E1` while `UQ ...` (unknown modifier `Q`) succeeds with a port reply. -/
theorem claim_C10 :
    (∀ (cf : CCfg) (ms : ModState) (cp : List Char),
      0 < (strtolL cp).1 → (strtolL cp).1 < 10 →
      parseMods cf ('Z' :: cp) ms = Except.error 1 ∧
      parseMods cf ('z' :: cp) ms = Except.error 1) ∧
    (∀ (cf : CCfg) (ms : ModState) (c : Char) (cp : List Char),
      c ∉ (['a', 'A', 'e', 'E', 'i', 'I', '6', 's', 'S', 'w', 'W',
        'z', 'Z'] : List Char) →
      parseMods cf (c :: cp) ms = parseMods cf cp ms) ∧
    (handle_command cfgT cst0 argvUZ5 20).map Prod.snd =
      some (Reply.rerr 1) ∧
    (handle_command cfgT cst0 argvUQ 20).map Prod.snd =
      some (Reply.rport 10000 (some 10)) := by
  refine ⟨?_, ?_, by decide, by decide⟩
  · intro cf ms cp h1 h2
    have hdiv : Int.div (strtolL cp).1 10 = 0 :=
      Int.div_eq_zero_of_lt (by omega) h2
    constructor
    · unfold parseMods
      show parseModsF cf (cp.length + 1) ('Z' :: cp) ms = Except.error 1
      unfold parseModsF
      rw [if_neg (by simp), if_neg (by simp), if_neg (by simp),
        if_neg (by simp), if_neg (by simp), if_neg (by simp),
        if_pos (by simp)]
      simp only [hdiv]
      rw [if_pos (by omega)]
    · unfold parseMods
      show parseModsF cf (cp.length + 1) ('z' :: cp) ms = Except.error 1
      unfold parseModsF
      rw [if_neg (by simp), if_neg (by simp), if_neg (by simp),
        if_neg (by simp), if_neg (by simp), if_neg (by simp),
        if_pos (by simp)]
      simp only [hdiv]
      rw [if_pos (by omega)]
  · intro cf ms c cp hc
    simp only [List.mem_cons, List.not_mem_nil, or_false, not_or] at hc
    obtain ⟨ha, hA, he, hE, hi2, hI, h6, hs, hS, hw, hW, hz, hZ⟩ := hc
    unfold parseMods
    show parseModsF cf (cp.length + 1) (c :: cp) ms =
      parseModsF cf cp.length cp ms
    conv_lhs => unfold parseModsF
    rw [if_neg (by tauto), if_neg (by tauto), if_neg (by tauto),
      if_neg (by tauto), if_neg (by tauto), if_neg (by tauto),
      if_neg (by tauto)]

/-- Witness for C10 on the concrete modifier strings `Z5` and `Q`. -/
theorem claim_C10_witness :
    0 < (strtolL ['5']).1 ∧ (strtolL ['5']).1 < 10 ∧
    parseMods cfgT ('Z' :: ['5']) msX = Except.error 1 ∧
    parseMods cfgT ('Q' :: []) msX = parseMods cfgT [] msX :=
  ⟨by decide, by decide,
   (claim_C10.1 cfgT msX ['5'] (by decide) (by decide)).1,
   claim_C10.2.1 cfgT msX 'Q' [] (by decide)⟩

/-- No slot of the table survives the matching loop's filters for this
command: every held session is an RTCP record, or out of primary
position, or has a different call id, or fails both tag comparisons. -/
def noMatch (st : CState) (call_id from_tag : List Char)
    (to_tag : Option (List Char)) : Prop :=
  ∀ k, k < st.sessions.length → ∀ sid, st.sessions.getD k none = some sid →
    (st.smap sid).rtcp = none ∨ (st.smap sid).sidx 0 ≠ (k : Int) ∨
    (st.smap sid).call_id ≠ call_id ∨
    ((compare_session_tags (st.smap sid).tag from_tag).1 = 0 ∧
     ∀ t, to_tag = some t → (compare_session_tags (st.smap sid).tag t).1 = 0)

instance (st : CState) (call_id from_tag : List Char)
    (to_tag : Option (List Char)) :
    Decidable (noMatch st call_id from_tag to_tag) := by
  unfold noMatch
  infer_instance

/-- When nothing matches, the loop walks to the end of the table without
touching it and settles the command there (src/main.c lines 806-831). -/
lemma cmdLoop_nomatch (cf : CCfg)
    (request response delete record noplay weak : Bool)
    (call_id from_tag : List Char) (to_tag : Option (List Char))
    (lia0 : Option Nat) (st : CState)
    (hnm : noMatch st call_id from_tag to_tag) :
    ∀ fuel i nd, 0 < fuel → st.sessions.length ≤ i + (fuel - 1) →
    cmdLoop cf request response delete record noplay weak call_id from_tag
      to_tag lia0 fuel st i nd =
    (if delete ∧ nd ≠ 0 then some (.lreply st .rok)
     else if delete ∨ record ∨ noplay then some (.lreply st (.rerr 8))
     else if response then some (.lfound st 0 0 0 lia0 (-1))
     else some (.lnone st)) := by
  intro fuel
  induction fuel with
  | zero =>
    intro i nd h0 _
    omega
  | succ fuel ih =>
    intro i nd _ hlen
    by_cases hlt : i < st.sessions.length
    · conv_lhs => unfold cmdLoop
      rw [if_pos hlt]
      cases hg : st.sessions.getD i none with
      | none =>
        exact ih (i + 1) nd (by omega) (by omega)
      | some sid =>
        have hskip := hnm i hlt sid hg
        dsimp only
        cases hr : (st.smap sid).rtcp with
        | none =>
          exact ih (i + 1) nd (by omega) (by omega)
        | some tid =>
          dsimp only
          by_cases hcond : (st.smap sid).sidx 0 ≠ (i : Int) ∨
              (st.smap sid).call_id ≠ call_id
          · rw [if_pos hcond]
            exact ih (i + 1) nd (by omega) (by omega)
          · rw [if_neg hcond]
            rcases hskip with hx | hx | hx | hx
            · rw [hr] at hx
              exact absurd hx (by simp)
            · exact absurd (Or.inl hx) hcond
            · exact absurd (Or.inr hx) hcond
            · cases hto : to_tag with
              | none =>
                subst hto
                conv_lhs => rw [if_neg (by simp [hx.1])]
                exact ih (i + 1) nd (by omega) (by omega)
              | some t =>
                subst hto
                have hm2 := hx.2 t rfl
                conv_lhs => rw [if_neg (by simp [hx.1])]
                dsimp only
                conv_lhs => rw [if_neg (by simp [hm2])]
                exact ih (i + 1) nd (by omega) (by omega)
    · conv_lhs => unfold cmdLoop
      rw [if_neg hlt]

/-- C5 (amended): when no session survives the matching filters, the
session-addressed verbs `D`, `R` and `S` fail with the error line E8 —
but a not-found `L` does not: it takes the `pidx = -1` path through
`writeport` and replies with port 0 (src/main.c lines 826-829), leaving
the table untouched. -/
theorem claim_C5 (cf : CCfg) (st : CState) (argv : List (List Char))
    (fuel : Nat) (c0 : Char) (ha0 : argv.headD [] = [c0])
    (h0 : 0 < fuel) (hflen : st.sessions.length ≤ fuel) :
    ((c0 = 'd' ∨ c0 = 'D' ∨ c0 = 'r' ∨ c0 = 'R' ∨ c0 = 's' ∨ c0 = 'S') →
      (argv.length = 3 ∨ argv.length = 4) →
      noMatch st (argv.getD 1 []) (argv.getD 2 []) (argv.get? 3) →
      handle_command cf st argv fuel = some (st, Reply.rerr 8)) ∧
    ((c0 = 'l' ∨ c0 = 'L') →
      (argv.length = 5 ∨ argv.length = 6) →
      noMatch st (argv.getD 1 []) (argv.getD 4 []) (argv.get? 5) →
      ∃ h, handle_command cf st argv fuel = some (st, Reply.rport 0 h)) := by
  constructor
  · intro hc hl hnm
    rcases hc with rfl | rfl | rfl | rfl | rfl | rfl <;>
      rcases hl with hl | hl <;>
      · unfold handle_command
        dsimp only
        rw [ha0, hl]
        simp +decide only [List.headD, List.tail_cons, List.length_nil,
          parseMods, parseModsF, if_true, if_false]
        rw [cmdLoop_nomatch cf _ _ _ _ _ _ _ _ _ _ st hnm fuel 1 0 h0
          (by omega)]
        simp +decide only [if_true, if_false]
  · intro hc hl hnm
    rcases hc with rfl | rfl <;>
      rcases hl with hl | hl <;>
      · unfold handle_command
        dsimp only
        rw [ha0, hl]
        simp +decide only [List.headD, List.tail_cons, List.length_nil,
          parseMods, parseModsF, if_true, if_false]
        rw [cmdLoop_nomatch cf _ _ _ _ _ _ _ _ _ _ st hnm fuel 1 0 h0
          (by omega)]
        simp +decide only [if_true, if_false]
        exact ⟨_, rfl⟩

/-- Counterexample to C5 as stated: a lookup on the empty table is
answered with `0` (port 0, local address attached), not with `E8`. -/
theorem claim_C5_counterexample :
    (handle_command cfgT cst0 argvL 20).map Prod.snd =
      some (Reply.rport 0 (some 10)) ∧
    ∀ e, (handle_command cfgT cst0 argvL 20).map Prod.snd ≠
      some (Reply.rerr e) := by
  constructor
  · decide
  · intro e h
    rw [show (handle_command cfgT cst0 argvL 20).map Prod.snd =
      some (Reply.rport 0 (some 10)) from by decide] at h
    exact absurd h (by simp)

/-- Witness for C5 on the empty table: `D` not found gives E8, `L` not
found gives a port-0 reply. -/
theorem claim_C5_witness :
    handle_command cfgT cst0 argvD 20 = some (cst0, Reply.rerr 8) ∧
    ∃ h, handle_command cfgT cst0 argvL 20 = some (cst0, Reply.rport 0 h) :=
  ⟨(claim_C5 cfgT cst0 argvD 20 'D' (by decide) (by decide) (by decide)).1
      (by decide) (by decide) (by decide),
   (claim_C5 cfgT cst0 argvL 20 'L' (by decide) (by decide) (by decide)).2
      (by decide) (by decide) (by decide)⟩

/-- Under an oracle where every bind succeeds the allocator settles on
the (clamped) starting cursor immediately. -/
lemma create_listener_allbok (env : BindEnv)
    (henv : ∀ p, env.res p = BindStep.bok) (pmin pmax sp0 : Int)
    (fuel : Nat) (h0 : 0 < fuel) :
    (create_listener env pmin pmax sp0 fuel).2 =
      some (CLOut.clok (if sp0 < pmin ∨ sp0 > pmax then pmin else sp0)
        (env.fd (if sp0 < pmin ∨ sp0 > pmax then pmin else sp0))
        (env.fd ((if sp0 < pmin ∨ sp0 > pmax then pmin else sp0) + 1))) := by
  obtain ⟨f, rfl⟩ : ∃ f, fuel = f + 1 := ⟨fuel - 1, by omega⟩
  unfold create_listener
  dsimp only
  conv_lhs => unfold create_listener_loop
  rw [if_neg (by simp)]
  unfold create_twinlistener
  rw [henv, henv]
  rfl

/-- The allocator fuel is always positive. -/
lemma clFuel_pos (cf : CCfg) : 0 < clFuel cf := by
  unfold clFuel
  omega

/-- `append_session` never touches a remote address. -/
lemma cAppend_addr (st : CState) (sid : Nat) (j : Fin 2) (s : Nat)
    (p : Fin 2) : ((cAppend st sid j).smap s).addr p = (st.smap s).addr p := by
  unfold cAppend
  dsimp only
  split <;>
    (dsimp only
     rw [Function.update_apply]
     split
     · rename_i hE
       subst hE
       rfl
     · rfl)

/-- The reference update of a matched `U`/`L` never touches an
address. -/
lemma applyULRefs_addr (weak response : Bool) (side : Fin 2)
    (sp : CSession) : (applyULRefs weak response side sp).addr = sp.addr := by
  unfold applyULRefs
  split
  · rfl
  · split <;> rfl

/-- The matched `U`/`L` tail keeps every session's remote addresses:
they agree with any address-equal base state. -/
lemma ulState_addr (cf : CCfg) (weak response : Bool) (st0 st : CState)
    (sid : Nat) (side : Fin 2)
    (hpre : ∀ s (p : Fin 2), (st.smap s).addr p = (st0.smap s).addr p) :
    ∀ s (p : Fin 2),
      ((ulState cf weak response st sid side).smap s).addr p =
        (st0.smap s).addr p := by
  intro s p
  unfold ulState
  dsimp only
  rw [Function.update_apply]
  split
  · rename_i hE
    subst hE
    show (applyULRefs weak response side (st.smap s)).addr p = _
    rw [applyULRefs_addr]
    exact hpre s p
  · exact hpre s p

/-- With no resolved address pair, `writeport` installs nothing: every
session's remote addresses survive unchanged, and the reply is the port
line. -/
lemma writeport_ia_none (cf : CCfg) (st : CState) (spaOpt : Option Nat)
    (lport : Int) (lia0 : Option Nat) (pidx : Int)
    (asym request response : Bool) (reqn : Int) :
    (∀ s (p : Fin 2),
      ((writeport cf st spaOpt lport lia0 pidx none asym request response
          reqn).1.smap s).addr p = (st.smap s).addr p) ∧
    ∃ h, (writeport cf st spaOpt lport lia0 pidx none asym request response
        reqn).2 = Reply.rport lport h := by
  cases spaOpt with
  | none =>
    exact ⟨fun s p => rfl, _, rfl⟩
  | some sid =>
    refine ⟨?_, _, rfl⟩
    intro s p
    unfold writeport
    dsimp only
    by_cases hp : pidx ≥ 0
    · rw [if_pos hp]
      cases hrt : (st.smap sid).rtcp with
      | none =>
        dsimp only
        rw [Function.update_apply]
        split
        · rename_i hE
          subst hE
          split <;> rfl
        · rfl
      | some tid =>
        dsimp only
        rw [Function.update_apply]
        split
        · rename_i hE
          subst hE
          rfl
        · rw [Function.update_apply]
          split
          · rename_i hE
            subst hE
            split <;> rfl
          · rfl
    · rw [if_neg hp]

/-- For a `U`/`L` command under an always-successful socket layer, the
matching loop either leaves with a matched session and a state whose
remote addresses are untouched, or falls off the table with the state
exactly as it was. -/
lemma cmdLoop_ul_addr (cf : CCfg) (request response weak : Bool)
    (call_id from_tag : List Char) (to_tag : Option (List Char))
    (lia0 : Option Nat) (henv : ∀ q, cf.env.res q = BindStep.bok) :
    ∀ fuel st i nd res,
    cmdLoop cf request response false false false weak call_id from_tag
      to_tag lia0 fuel st i nd = some res →
    (∃ st2 sid side lport l0 pidx,
      res = .lfound st2 sid side lport l0 pidx ∧
      ∀ s (p : Fin 2), (st2.smap s).addr p = (st.smap s).addr p) ∨
    res = .lnone st := by
  intro fuel
  induction fuel with
  | zero =>
    intro st i nd res h
    exact Option.noConfusion h
  | succ fuel ih =>
    intro st i nd res h
    by_cases hlt : i < st.sessions.length
    · unfold cmdLoop at h
      rw [if_pos hlt] at h
      split at h
      · exact ih st (i + 1) nd res h
      · rename_i sid heq
        dsimp only at h
        split at h
        · exact ih st (i + 1) nd res h
        · rename_i tid hrt
          split at h
          · exact ih st (i + 1) nd res h
          · rename_i hcond
            split at h
            · exact ih st (i + 1) nd res h
            · rename_i side cmpr hsc
              simp only [Bool.false_eq_true, if_false] at h
              by_cases hfd : (st.smap sid).fds side = -1
              · rw [if_pos hfd] at h
                rw [create_listener_allbok cf.env henv cf.port_min
                  cf.port_max _ (clFuel cf) (clFuel_pos cf)] at h
                simp only [ulTail] at h
                have hres := (Option.some.inj h).symm
                refine Or.inl ⟨_, sid, side, _, _, _, hres, ?_⟩
                apply ulState_addr
                intro s p
                rw [cAppend_addr, cAppend_addr]
                dsimp only
                rw [Function.update_apply]
                split
                · rename_i hE
                  subst hE
                  rfl
                · rw [Function.update_apply]
                  split
                  · rename_i hE
                    subst hE
                    rfl
                  · rfl
              · rw [if_neg hfd] at h
                simp only [ulTail] at h
                have hres := (Option.some.inj h).symm
                refine Or.inl ⟨_, sid, side, _, _, _, hres, ?_⟩
                apply ulState_addr
                intro s p
                rfl
    · unfold cmdLoop at h
      rw [if_neg hlt] at h
      simp only [Bool.false_eq_true, false_and, if_false, Bool.false_or,
        false_or] at h
      by_cases hresp : response = true
      · rw [if_pos hresp] at h
        exact Or.inl ⟨st, 0, 0, 0, lia0, -1, (Option.some.inj h).symm,
          fun s p => rfl⟩
      · rw [if_neg hresp] at h
        exact Or.inr (Option.some.inj h).symm

/-- C9: for a plain `U`/`L` command (no modifiers) whose address argument
is shorter than 7 characters or resolves to the null host, the resolved
pair `ia[]` is never built, so `writeport` installs no remote address on
any session or RTCP twin (addresses are unchanged, and only freshly
created sessions carry `NULL` addresses); no error is reported and the
reply is still the local-port line, provided the socket layer itself
succeeds. -/
theorem claim_C9 (cf : CCfg) (st : CState) (argv : List (List Char))
    (fuel : Nat) (st2 : CState) (r : Reply) (c0 : Char)
    (ha0 : argv.headD [] = [c0])
    (hc : c0 = 'u' ∨ c0 = 'U' ∨ c0 = 'l' ∨ c0 = 'L')
    (hl : argv.length = 5 ∨ argv.length = 6)
    (hshort : (argv.getD 2 []).length < 7 ∨
      (∀ pfx hp, cf.resolve pfx (argv.getD 2 []) (argv.getD 3 []) = some hp →
        cf.hostnull hp.1 = true))
    (henv : ∀ q, cf.env.res q = BindStep.bok)
    (hrun : handle_command cf st argv fuel = some (st2, r)) :
    (∃ lp h, r = Reply.rport lp h) ∧
    (∀ s (p : Fin 2), (st2.smap s).addr p = (st.smap s).addr p ∨
      (st2.smap s).addr p = none) := by
  rw [List.getD_eq_getElem?_getD, List.getD_eq_getElem?_getD] at hshort
  rcases hc with rfl | rfl | rfl | rfl <;> rcases hl with hl | hl <;>
  · unfold handle_command at hrun
    dsimp only at hrun
    rw [ha0, hl] at hrun
    simp +decide [List.headD, List.tail_cons, List.length_nil,
      parseMods, parseModsF, if_true, if_false, true_and] at hrun
    -- the resolved-address pair is never produced
    have hia : (if 7 ≤ (argv[2]?.getD ([] : List Char)).length then
        match cf.resolve 4 (argv[2]?.getD []) (argv[3]?.getD []) with
        | some hp => if cf.hostnull hp.1 = true then none else some hp
        | none => none
      else (none : Option (Nat × Nat))) = none := by
      rcases hshort with hsh | hsh
      · rw [if_neg (by omega)]
      · by_cases hlen : 7 ≤ (argv[2]?.getD ([] : List Char)).length
        · rw [if_pos hlen]
          cases hres : cf.resolve 4 (argv[2]?.getD [])
              (argv[3]?.getD []) with
          | none => rfl
          | some hp => exact if_pos (hsh 4 hp hres)
        · rw [if_neg hlen]
    rw [hia] at hrun
    split at hrun
    · exact Option.noConfusion hrun
    · rename_i st3 r3 heq
      rcases cmdLoop_ul_addr cf _ _ _ _ _ _ _ henv fuel st 1 0 _ heq with
        ⟨st4, sid4, side4, lp4, l04, p4, habs, -⟩ | habs
      · exact LoopRes.noConfusion habs
      · exact LoopRes.noConfusion habs
    · rename_i st3 sid side lport l0 pidx heq
      rcases cmdLoop_ul_addr cf _ _ _ _ _ _ _ henv fuel st 1 0 _ heq with
        ⟨st4, sid4, side4, lp4, l04, p4, hfe, haddr⟩ | habs
      · injection hfe with h1 h2 h3 h4 h5 h6
        rw [← h1] at haddr
        have hp2 := Option.some.inj hrun
        constructor
        · exact ⟨_, _, (congrArg Prod.snd hp2).symm⟩
        · intro s p
          have hst2 := congrArg Prod.fst hp2
          dsimp only at hst2
          rw [← hst2]
          rw [(writeport_ia_none cf _ _ _ _ _ _ _ _ _).1 s p]
          exact Or.inl (haddr s p)
      · exact LoopRes.noConfusion habs
    · rename_i st3 heq
      rcases cmdLoop_ul_addr cf _ _ _ _ _ _ _ henv fuel st 1 0 _ heq with
        ⟨st4, sid4, side4, lp4, l04, p4, habs, -⟩ | hfe
      · exact LoopRes.noConfusion habs
      · injection hfe with h1
        rw [h1] at hrun
        rw [create_listener_allbok cf.env henv cf.port_min cf.port_max _
          (clFuel cf) (clFuel_pos cf)] at hrun
        have hp2 := Option.some.inj hrun
        constructor
        · exact ⟨_, _, (congrArg Prod.snd hp2).symm⟩
        · intro s p
          have hst2 := congrArg Prod.fst hp2
          dsimp only at hst2
          rw [← hst2]
          rw [(writeport_ia_none cf _ _ _ _ _ _ _ _ _).1 s p]
          rw [cAppend_addr, cAppend_addr, cAppend_addr, cAppend_addr]
          dsimp only
          rw [Function.update_apply]
          split
          · exact Or.inr rfl
          · rw [Function.update_apply]
            split
            · exact Or.inr rfl
            · exact Or.inl rfl

def argvUshort : List (List Char) :=
  ["U".toList, "c2".toList, "1.2.3".toList, "5000".toList, "tagA".toList]

/-- Witness for C9: a `U` with the 5-character address `1.2.3` succeeds
with a port reply and leaves every remote address empty. -/
theorem claim_C9_witness :
    (∃ lp h, ((handle_command cfgT cst0 argvUshort 20).getD
      (cst0, Reply.rok)).2 = Reply.rport lp h) ∧
    (∀ s (p : Fin 2),
      ((((handle_command cfgT cst0 argvUshort 20).getD
        (cst0, Reply.rok)).1).smap s).addr p = (cst0.smap s).addr p ∨
      ((((handle_command cfgT cst0 argvUshort 20).getD
        (cst0, Reply.rok)).1).smap s).addr p = none) :=
  claim_C9 cfgT cst0 argvUshort 20
    ((handle_command cfgT cst0 argvUshort 20).getD (cst0, Reply.rok)).1
    ((handle_command cfgT cst0 argvUshort 20).getD (cst0, Reply.rok)).2
    'U' (by decide) (by decide) (by decide) (Or.inl (by decide))
    (fun q => rfl) rfl
